import Mathlib

/-!
Verification development for the Confluence Markdown transcoder of this
repository.  The downloader side (`confluence_downloader.py`) renders an
Atlas document tree to Markdown; the uploader side (`confluence_uploader.py`)
parses Markdown back to Confluence storage markup.  Every definition below is
a shallow embedding translated from those two source files; Python strings
are modelled as `String` backed by `List Char`, Python dict-based nodes as a
closed inductive, and the few non-structural loops carry an explicit fuel
argument that is always called with a sufficient bound.
-/

/-! ## Character and string helpers (Python string primitives) -/

/-- Python whitespace class used by `str.strip` and the regex class. -/
def isSpaceChar (c : Char) : Bool :=
  c = ' ' || c = '\t' || c = '\n' || c = '\r' || c = '\x0b' || c = '\x0c'

/-- Python word-character class (ASCII part of the regex word class). -/
def isWordChar (c : Char) : Bool :=
  c.isAlphanum || c = '_'

/-- Drop elements satisfying `p` from the right end of a list. -/
def rdropWhileCh (p : Char → Bool) (l : List Char) : List Char :=
  (l.reverse.dropWhile p).reverse

/-- Python `str.strip()` on a character list. -/
def trimChars (cs : List Char) : List Char :=
  rdropWhileCh isSpaceChar (cs.dropWhile isSpaceChar)

/-- Python `str.strip()`. -/
def pyStrip (s : String) : String :=
  String.mk (trimChars s.data)

/-- Leftmost non-overlapping substring replacement on character lists,
the semantics of Python `str.replace`; the first argument is fuel,
always called with the length of the subject list. -/
def replaceSub (pat repl : List Char) : Nat → List Char → List Char
  | 0, cs => cs
  | _ + 1, [] => []
  | f + 1, c :: rest =>
    if pat.isPrefixOf (c :: rest) then
      repl ++ replaceSub pat repl f ((c :: rest).drop pat.length)
    else
      c :: replaceSub pat repl f rest

/-- Python `str.replace`. -/
def pyReplace (s pat repl : String) : String :=
  String.mk (replaceSub pat.data repl.data s.data.length s.data)

/-- Split a character list on a separator character, Python `str.split(sep)`. -/
def splitOnCh (sep : Char) : List Char → List (List Char)
  | [] => [[]]
  | c :: rest =>
    match splitOnCh sep rest with
    | [] => [[]]
    | g :: gs => if c = sep then [] :: g :: gs else (c :: g) :: gs

/-- Join strings with a separator, Python `sep.join`. -/
def joinStr (sep : String) : List String → String
  | [] => ""
  | [x] => x
  | x :: y :: rest => x ++ sep ++ joinStr sep (y :: rest)

/-- Python `str.lower` (ASCII). -/
def pyLower (s : String) : String :=
  String.mk (s.data.map Char.toLower)

/-- Python truthiness of a string: nonempty. -/
def strTruthy (s : String) : Bool :=
  s ≠ ""

namespace Downloader

/-! ## Data model (Atlas document tree, `confluence_downloader.py`)

Only the node kinds exercised by the renderer functions under verification
are modelled; media, layout and card nodes perform network requests and are
outside the model.  Child sequences are a mutually defined list type so that
all recursions are structural and computable. -/

/-- Inline mark on a text node. -/
inductive Mark where
  | strong
  | em
  | code
  | link (href : String)
  | unknown (name : String)

mutual

/-- A node of the Atlas document tree.  The `attrs` defaults of the source
are materialised: heading level, codeBlock language, cell rowspan/colspan,
orderedList order, extension extensionKey. -/
inductive Node where
  | text (s : String) (marks : List Mark)
  | paragraph (content : NodeList)
  | heading (level : Nat) (content : NodeList)
  | bulletList (content : NodeList)
  | orderedList (order : Nat) (content : NodeList)
  | listItem (content : NodeList)
  | table (content : NodeList)
  | tableRow (content : NodeList)
  | tableCell (rowspan colspan : Nat) (content : NodeList)
  | tableHeader (rowspan colspan : Nat) (content : NodeList)
  | codeBlock (language : String) (content : NodeList)
  | rule
  | extension (extensionKey : String)
  | status (label : String)
  | hardBreak

/-- A sequence of sibling nodes. -/
inductive NodeList where
  | nil
  | cons (head : Node) (tail : NodeList)

end

/-- Build a `NodeList` from a Lean list literal. -/
def nl : List Node → NodeList
  | [] => .nil
  | n :: ns => .cons n (nl ns)


/-- The `content` list of a node (`node.get('content', [])`). -/
def Node.children : Node → NodeList
  | .text _ _ => .nil
  | .paragraph c => c
  | .heading _ c => c
  | .bulletList c => c
  | .orderedList _ c => c
  | .listItem c => c
  | .table c => c
  | .tableRow c => c
  | .tableCell _ _ c => c
  | .tableHeader _ _ c => c
  | .codeBlock _ c => c
  | .rule => .nil
  | .extension _ => .nil
  | .status _ => .nil
  | .hardBreak => .nil

mutual

/-- Structural size of a node, used as fuel for the one renderer loop whose
recursion is not structural (`process_nested_list`). -/
def Node.size : Node → Nat
  | .text _ _ => 1
  | .paragraph c => NodeList.size c + 1
  | .heading _ c => NodeList.size c + 1
  | .bulletList c => NodeList.size c + 1
  | .orderedList _ c => NodeList.size c + 1
  | .listItem c => NodeList.size c + 1
  | .table c => NodeList.size c + 1
  | .tableRow c => NodeList.size c + 1
  | .tableCell _ _ c => NodeList.size c + 1
  | .tableHeader _ _ c => NodeList.size c + 1
  | .codeBlock _ c => NodeList.size c + 1
  | .rule => 1
  | .extension _ => 1
  | .status _ => 1
  | .hardBreak => 1

/-- Structural size of a node sequence. -/
def NodeList.size : NodeList → Nat
  | .nil => 0
  | .cons n ns => Node.size n + NodeList.size ns + 1

end

/-! ## Inline text extractor (`_extract_text_from_node`) -/

/-- First `link` mark of a mark list, with its `href` (the first loop of the
text-node branch returns on the first link mark). -/
def firstLinkHref : List Mark → Option String
  | [] => none
  | .link u :: _ => some u
  | _ :: ms => firstLinkHref ms

/-- One step of the second mark loop: strong/em/code wrap the stripped text,
any other mark leaves it unchanged. -/
def wrapMark (s : String) : Mark → String
  | .strong => "**" ++ pyStrip s ++ "**"
  | .em => "*" ++ pyStrip s ++ "*"
  | .code => "`" ++ pyStrip s ++ "`"
  | _ => s

/-- A part ends with a formatting delimiter (`.endswith(('**', '*', '`'))`). -/
def endsWithDelim (s : String) : Bool :=
  match s.data.getLast? with
  | some '*' => true
  | some '`' => true
  | _ => false

/-- Join extracted child texts, inserting one space when a nonempty part ends
with a formatting delimiter and the next part is nonempty (lines 1597-1604
and 1611-1621 of the source). -/
def joinParts : List String → String
  | [] => ""
  | [p] => p
  | p :: q :: rest =>
    p ++ (if strTruthy p && endsWithDelim p && strTruthy q then " " else "")
      ++ joinParts (q :: rest)

/-- `_extract_extension_content`: only the `toc` macro yields text here; the
`profile` branch needs `parameters.macroOutput`, absent from the model, and
falls through to the empty string like every other extension. -/
def extractExtensionContent (extensionKey : String) : String :=
  if extensionKey = "toc" then
    "## 목차\n\n*이 위치에 자동 생성된 목차가 표시됩니다.*"
  else
    ""

mutual

/-- `_extract_text_from_node` (lines 1299-1621).  The `context` parameter of
the source only affects `inlineCard` nodes, outside the model, so the
paragraph branch coincides with the generic child recursion. -/
def extractTextFromNode : Node → String
  | .extension key => extractExtensionContent key
  | .text s marks =>
    (match firstLinkHref marks with
     | some url => "[" ++ s ++ "](" ++ url ++ ")"
     | none => marks.foldl wrapMark s)
  | .status label => label
  | .hardBreak => "\n"
  | .paragraph c => joinParts (extractParts c)
  | .heading _ c => joinParts (extractParts c)
  | .bulletList c => joinParts (extractParts c)
  | .orderedList _ c => joinParts (extractParts c)
  | .listItem c => joinParts (extractParts c)
  | .table c => joinParts (extractParts c)
  | .tableRow c => joinParts (extractParts c)
  | .tableCell _ _ c => joinParts (extractParts c)
  | .tableHeader _ _ c => joinParts (extractParts c)
  | .codeBlock _ c => joinParts (extractParts c)
  | .rule => joinParts []

/-- Extracted texts of a sequence of children. -/
def extractParts : NodeList → List String
  | .nil => []
  | .cons n ns => extractTextFromNode n :: extractParts ns

end

/-! ## TOC generation (`extension` branch of
`_convert_content_to_markdown_with_toc`, lines 962-989) -/

/-- Anchor construction: strip mark characters and quotes, lower-case,
spaces to hyphens, drop `./()&:`. -/
def anchorOf (t : String) : String :=
  let clean := pyReplace (pyReplace (pyReplace (pyReplace (pyReplace t "**" "") "*" "") "`" "") "\"" "") "\x27" ""
  let a := pyLower clean
  pyReplace (pyReplace (pyReplace (pyReplace (pyReplace (pyReplace (pyReplace a " " "-") "." "") "/" "") "(" "") ")" "") "&" "") ":" ""

/-- `"   " * (level - 2)` (Python repetition of a negative count is empty,
matching truncated subtraction). -/
def tocIndent (level : Nat) : String :=
  joinStr "" (List.replicate (level - 2) "   ")

/-- One TOC entry line. -/
def tocEntry (level : Nat) (t : String) : String :=
  tocIndent level ++ "- [" ++ t ++ "](#" ++ anchorOf t ++ ")"

/-- The entry lines of the generated TOC: headings of level above 3 are
skipped. -/
def tocEntries : List (Nat × String) → List String
  | [] => []
  | (l, t) :: rest =>
    if l > 3 then tocEntries rest else tocEntry l t :: tocEntries rest

/-- The full TOC block appended for a `toc` extension. -/
def tocBlock (headings : List (Nat × String)) : String :=
  joinStr "\n" (["## 목차", ""] ++ tocEntries headings)

/-- The heading pre-scan of `atlas_doc_to_markdown` (lines 721-728): top
level headings with nonempty stripped text, stored stripped. -/
def collectHeadings : NodeList → List (Nat × String)
  | .nil => []
  | .cons n ns =>
    (match n with
     | .heading lvl c =>
       let t := extractTextFromNode (.heading lvl c)
       if strTruthy (pyStrip t) then [(lvl, pyStrip t)] else []
     | _ => []) ++ collectHeadings ns

/-! ## Table cell content (`_extract_cell_content`, lines 1713-1835) -/

/-- `"&nbsp;&nbsp;" * indent_level`. -/
def nbspIndent (level : Nat) : String :=
  joinStr "" (List.replicate level "&nbsp;&nbsp;")

/-- Alphabetic marker `chr(ord('a') + order - 1)` of a nested ordered list. -/
def letterOf (order : Nat) : String :=
  String.mk [Char.ofNat ('a'.toNat + order - 1)]

/-- The shared inner loop of the cell list branches: first paragraph text (if
any) and the nested list children of one list item, in order (`mediaSingle`
children are outside the model, so the media part is empty). -/
def collectItemParts (firstPara : Option String) : NodeList → Option String × List Node
  | .nil => (firstPara, [])
  | .cons n ns =>
    match n with
    | .paragraph c =>
      (match firstPara with
       | none => collectItemParts (some (extractTextFromNode (.paragraph c))) ns
       | some _ => collectItemParts firstPara ns)
    | .bulletList c =>
      let (f, l) := collectItemParts firstPara ns
      (f, Node.bulletList c :: l)
    | .orderedList o c =>
      let (f, l) := collectItemParts firstPara ns
      (f, Node.orderedList o c :: l)
    | _ => collectItemParts firstPara ns

mutual

/-- `process_nested_list` (lines 1757-1807); the fuel is always called with
the structural size of the node, which bounds the recursion depth. -/
def processNestedList : Nat → Nat → Node → List String
  | 0, _, _ => []
  | f + 1, level, .bulletList items => processNestedItemsB f level items
  | f + 1, level, .orderedList order items => processNestedItemsO f level order items
  | _ + 1, _, _ => []

/-- Item loop of the nested bulletList case. -/
def processNestedItemsB (f level : Nat) : NodeList → List String
  | .nil => []
  | .cons (.listItem c) rest =>
    let (fp, deeper) := collectItemParts none c
    (match fp with
     | some t => if strTruthy t && strTruthy (pyStrip t) then [nbspIndent level ++ "◦ " ++ t] else []
     | none => [])
    ++ deeper.flatMap (processNestedList f (level + 1))
    ++ processNestedItemsB f level rest
  | .cons _ rest => processNestedItemsB f level rest

/-- Item loop of the nested orderedList case; every item of one list gets the
same letter, derived from the list `order` attribute. -/
def processNestedItemsO (f level order : Nat) : NodeList → List String
  | .nil => []
  | .cons (.listItem c) rest =>
    let (fp, deeper) := collectItemParts none c
    (match fp with
     | some t => if strTruthy t && strTruthy (pyStrip t) then [nbspIndent level ++ letterOf order ++ ". " ++ t] else []
     | none => [])
    ++ deeper.flatMap (processNestedList f (level + 1))
    ++ processNestedItemsO f level order rest
  | .cons _ rest => processNestedItemsO f level order rest

end

/-- The `list_lines` of the bulletList-in-cell branch (lines 1726-1811),
accumulated across all items and joined once by the caller. -/
def bulletCellLines : NodeList → List String
  | .nil => []
  | .cons (.listItem c) rest =>
    let (fp, deeper) := collectItemParts none c
    (match fp with
     | some t => if strTruthy t then ["• " ++ t] else []
     | none => [])
    ++ deeper.flatMap (fun d => processNestedList (Node.size d) 1 d)
    ++ bulletCellLines rest
  | .cons _ rest => bulletCellLines rest

/-- The orderedList-in-cell branch (lines 1814-1821): enumerate all children
from 1, list items rendered `i. text`. -/
def orderedCellItems (i : Nat) : NodeList → List String
  | .nil => []
  | .cons (.listItem c) rest =>
    (toString i ++ ". " ++ extractTextFromNode (.listItem c)) :: orderedCellItems (i + 1) rest
  | .cons _ rest => orderedCellItems (i + 1) rest

/-- The `content_parts` of `_extract_cell_content`. -/
def cellParts : NodeList → List String
  | .nil => []
  | .cons n ns =>
    (match n with
     | .paragraph c => [extractTextFromNode (.paragraph c)]
     | .bulletList items => [joinStr "<br>" (bulletCellLines items)]
     | .orderedList _ items => [joinStr "<br>" (orderedCellItems 1 items)]
     | .codeBlock lang c =>
       let t := extractTextFromNode (.codeBlock lang c)
       if strTruthy (pyStrip t) then ["`" ++ t ++ "`"] else []
     | other =>
       let t := extractTextFromNode other
       if strTruthy (pyStrip t) then [t] else [])
    ++ cellParts ns

/-- `_extract_cell_content`. -/
def extractCellContent (cell : Node) : String :=
  joinStr "<br>" (cellParts cell.children)

/-! ## Table layout engine (`_convert_table_to_markdown`, lines 1837-1905) -/

/-- The rowspan tracker: column index to (remaining rows, original content),
the Python dict `rowspan_tracker`. -/
abbrev Tracker := List (Nat × Nat × String)

/-- Dict lookup. -/
def trackerGet (tr : Tracker) (col : Nat) : Option (Nat × String) :=
  (tr.find? (fun e => e.1 = col)).map (fun e => e.2)

/-- Dict assignment. -/
def trackerSet (tr : Tracker) (col : Nat) (v : Nat × String) : Tracker :=
  if (tr.find? (fun e => e.1 = col)).isSome then
    tr.map (fun e => if e.1 = col then (col, v) else e)
  else
    tr ++ [(col, v)]

/-- Dict deletion. -/
def trackerDel (tr : Tracker) (col : Nat) : Tracker :=
  tr.filter (fun e => e.1 ≠ col)

/-- The occupied-column loop (lines 1852-1858 and 1889-1894): while the
current column is claimed by an active rowspan, emit an empty placeholder
cell, decrement the span and delete it when exhausted.  The fuel is called
with `tr.length + 1`, an upper bound on the number of iterations since each
iteration consumes a distinct tracked column at or past the cursor. -/
def consumeOccupied : Nat → Tracker → Nat → List String → Tracker × Nat × List String
  | 0, tr, col, cells => (tr, col, cells)
  | f + 1, tr, col, cells =>
    match trackerGet tr col with
    | some (rem, c) =>
      if rem > 0 then
        let tr1 := trackerSet tr col (rem - 1, c)
        let tr2 := if rem - 1 = 0 then trackerDel tr1 col else tr1
        consumeOccupied f tr2 (col + 1) (cells ++ [""])
      else (tr, col, cells)
    | none => (tr, col, cells)

/-- Span attributes of a physical cell node: is-header flag, rowspan,
colspan (`attrs.get('rowspan', 1)`, `attrs.get('colspan', 1)`). -/
def cellAttrs : Node → Option (Bool × Nat × Nat)
  | .tableCell rs cs _ => some (false, rs, cs)
  | .tableHeader rs cs _ => some (true, rs, cs)
  | _ => none

/-- The physical-cell loop of one row (lines 1849-1886). -/
def processCells (tr : Tracker) (col : Nat) (cells : List String) (hdr : Bool) :
    NodeList → Tracker × Nat × List String × Bool
  | .nil => (tr, col, cells, hdr)
  | .cons cell rest =>
    match cellAttrs cell with
    | none => processCells tr col cells hdr rest
    | some (isHdr, rs, cs) =>
      let s1 := consumeOccupied (tr.length + 1) tr col cells
      let tr1 := s1.1
      let col1 := s1.2.1
      let cells1 := s1.2.2
      let hdr1 := hdr || isHdr
      let c0 := pyStrip (pyReplace (pyReplace (extractCellContent cell) "|" "\\|") "\n" " ")
      let c1 := if c0 = "" then " " else c0
      let cells2 := cells1 ++ [c1]
      let tr2 := if rs > 1 then trackerSet tr1 col1 (rs - 1, c1) else tr1
      let cells3 := cells2 ++ List.replicate (cs - 1) ""
      let col2 := col1 + (cs - 1) + 1
      processCells tr2 col2 cells3 hdr1 rest

/-- Process one `tableRow`: physical cells, then the trailing occupied-column
fill; returns the updated tracker, the placed cell list and whether any cell
was a `tableHeader`. -/
def processRow (tr : Tracker) (rowChildren : NodeList) : Tracker × List String × Bool :=
  let s1 := processCells tr 0 [] false rowChildren
  let s2 := consumeOccupied (s1.1.length + 1) s1.1 s1.2.1 s1.2.2.1
  (s2.1, s2.2.2, s1.2.2.2)

/-- `'| ' + ' | '.join(cells) + ' |'`. -/
def renderRow (cells : List String) : String :=
  "| " ++ joinStr " | " cells ++ " |"

/-- The `row.get('type') == 'tableRow'` test, with the row children. -/
def Node.asTableRow : Node → Option NodeList
  | .tableRow c => some c
  | _ => none

/-- The row loop of `_convert_table_to_markdown`: accumulates rendered rows,
inserting the separator right after the first placed row when that row has a
header cell or is the first child of the table. -/
def tableFold : NodeList → Nat → Tracker → Bool → List String → List String
  | .nil, _, _, _, rows => rows
  | .cons node rest, idx, tr, ihr, rows =>
    match node.asTableRow with
    | some ch =>
      let r := processRow tr ch
      let tr1 := r.1
      let cells := r.2.1
      let rowHdr := r.2.2
      if cells.isEmpty then
        tableFold rest (idx + 1) tr1 ihr rows
      else
        let rows1 := rows ++ [renderRow cells]
        if (rowHdr || (ihr && idx = 0)) && rows1.length = 1 then
          tableFold rest (idx + 1) tr1 false (rows1 ++ [renderRow (List.replicate cells.length "---")])
        else
          tableFold rest (idx + 1) tr1 ihr rows1
    | none => tableFold rest (idx + 1) tr ihr rows

/-- The list of rendered table rows, separator included. -/
def tableRows (n : Node) : List String :=
  tableFold n.children 0 [] true []

/-- `_convert_table_to_markdown`. -/
def convertTableToMarkdown (n : Node) : String :=
  let rows := tableRows n
  if rows.isEmpty then "" else joinStr "\n" rows ++ "\n\n"

/-- The placed cell lists of a table (the `cells` value of every appended
row), computed with the same row processing as `tableFold`; used to state
grid properties of the rendered table. -/
def gridFold : NodeList → Tracker → List (List String)
  | .nil, _ => []
  | .cons node rest, tr =>
    match node.asTableRow with
    | some ch =>
      let r := processRow tr ch
      if r.2.1.isEmpty then gridFold rest r.1 else r.2.1 :: gridFold rest r.1
    | none => gridFold rest tr

/-- The cell grid of the rendered table. -/
def gridRows (n : Node) : List (List String) :=
  gridFold n.children []

/-- Sum of the colspans of the physical cells of a row. -/
def rowColWidthN : NodeList → Nat
  | .nil => 0
  | .cons n ns =>
    (match cellAttrs n with
     | some (_, _, cs) => cs
     | none => 0) + rowColWidthN ns

/-- Every physical cell of the row has rowspan 1 and colspan at least 1. -/
def rowspanFreeN : NodeList → Bool
  | .nil => true
  | .cons n ns =>
    (match cellAttrs n with
     | some (_, rs, cs) => rs = 1 && 1 ≤ cs
     | none => true) && rowspanFreeN ns

/-- The row has at least one physical cell. -/
def hasCellN : NodeList → Bool
  | .nil => false
  | .cons n ns => (cellAttrs n).isSome || hasCellN ns

/-- Every row of the table consists of cells with rowspan 1 and positive
colspan. -/
def simpleTable : NodeList → Bool
  | .nil => true
  | .cons node ns =>
    (match node.asTableRow with
     | some ch => rowspanFreeN ch
     | none => true) && simpleTable ns

/-- Every row of the table holding at least one cell has total colspan `W`. -/
def uniformWidth (W : Nat) : NodeList → Bool
  | .nil => true
  | .cons node ns =>
    (match node.asTableRow with
     | some ch => !hasCellN ch || rowColWidthN ch = W
     | none => true) && uniformWidth W ns

/-- A table child that places no cells when reached with an empty rowspan
tracker: either it is not a `tableRow`, or it is a `tableRow` without
physical cells. -/
def inertNode (n : Node) : Bool :=
  match n.asTableRow with
  | some ch => !hasCellN ch
  | none => true

/-- Prepend a plain list of nodes to a `NodeList`. -/
def nlApp : List Node → NodeList → NodeList
  | [], ns => ns
  | n :: l, ns => .cons n (nlApp l ns)

/-! ## Block renderer (`_convert_content_to_markdown_with_toc`, lines
735-1032) -/

/-- The `item_lines` of one bulletList item (lines 765-796): the first
nonempty paragraph becomes the bullet line, later paragraphs are indented
continuations, nested bullet lists flatten to `  - ` lines. -/
def bulletItemLinesAux (acc : List String) : NodeList → List String
  | .nil => acc
  | .cons n ns =>
    match n with
    | .paragraph c =>
      let t := extractTextFromNode (.paragraph c)
      if strTruthy (pyStrip t) then
        bulletItemLinesAux (acc ++ [if acc.isEmpty then "• " ++ t else "  " ++ t]) ns
      else
        bulletItemLinesAux acc ns
    | .bulletList items =>
      bulletItemLinesAux (acc ++ nestedBulletLines items) ns
    | _ => bulletItemLinesAux acc ns
where
  /-- Nested bullet lines `  - text` (lines 785-792). -/
  nestedBulletLines : NodeList → List String
    | .nil => []
    | .cons (.listItem c) rest =>
      (let t := extractTextFromNode (.listItem c)
       if strTruthy (pyStrip t) then ["  - " ++ t] else [])
      ++ nestedBulletLines rest
    | .cons _ rest => nestedBulletLines rest

/-- The `list_items` of a top-level bulletList. -/
def bulletListLines : NodeList → List String
  | .nil => []
  | .cons (.listItem c) rest => bulletItemLinesAux [] c ++ bulletListLines rest
  | .cons _ rest => bulletListLines rest

/-- The `item_lines` of one orderedList item (lines 804-835). -/
def orderedItemLinesAux (idx : Nat) (acc : List String) : NodeList → List String
  | .nil => acc
  | .cons n ns =>
    match n with
    | .paragraph c =>
      let t := extractTextFromNode (.paragraph c)
      if strTruthy (pyStrip t) then
        orderedItemLinesAux idx (acc ++ [if acc.isEmpty then toString idx ++ ". " ++ t else "   " ++ t]) ns
      else
        orderedItemLinesAux idx acc ns
    | .bulletList items =>
      orderedItemLinesAux idx (acc ++ orderedNestedLines items) ns
    | _ => orderedItemLinesAux idx acc ns
where
  /-- Nested bullet lines `   - text` inside an ordered item. -/
  orderedNestedLines : NodeList → List String
    | .nil => []
    | .cons (.listItem c) rest =>
      (let t := extractTextFromNode (.listItem c)
       if strTruthy (pyStrip t) then ["   - " ++ t] else [])
      ++ orderedNestedLines rest
    | .cons _ rest => orderedNestedLines rest

/-- The `list_items` of a top-level orderedList; the index enumerates every
child, list item or not, starting at 1. -/
def orderedListLines (idx : Nat) : NodeList → List String
  | .nil => []
  | .cons (.listItem c) rest => orderedItemLinesAux idx [] c ++ orderedListLines (idx + 1) rest
  | .cons _ rest => orderedListLines (idx + 1) rest

/-- The markdown entries appended for one top-level node of
`_convert_content_to_markdown_with_toc` (nodes with no branch in the source,
such as bare text or status, contribute nothing; `expand`, media, layout and
card nodes are outside the model). -/
def nodeBlocks (headings : List (Nat × String)) : Node → List String
  | .paragraph c =>
    let t := extractTextFromNode (.paragraph c)
    if strTruthy (pyStrip t) then [t] else []
  | .heading lvl c =>
    let t := extractTextFromNode (.heading lvl c)
    if strTruthy (pyStrip t) then [String.mk (List.replicate lvl '#') ++ " " ++ t] else []
  | .bulletList items => bulletListLines items
  | .orderedList _ items => orderedListLines 1 items
  | .table c =>
    let t := convertTableToMarkdown (.table c)
    if strTruthy (pyStrip t) then [pyStrip t] else []
  | .codeBlock lang c =>
    let t := extractTextFromNode (.codeBlock lang c)
    if strTruthy (pyStrip t) then ["```" ++ lang ++ "\n" ++ t ++ "\n```"] else []
  | .rule => ["---"]
  | .extension key =>
    if key = "toc" && !(collectNone headings) then [tocBlock headings]
    else
      let t := extractExtensionContent key
      if strTruthy (pyStrip t) then [t] else []
  | _ => []
where
  /-- Python truthiness of the heading list (`and headings`). -/
  collectNone : List (Nat × String) → Bool
    | [] => true
    | _ :: _ => false

/-- The `markdown` list accumulated over all top-level nodes. -/
def blocksOf (headings : List (Nat × String)) : NodeList → List String
  | .nil => []
  | .cons n ns => nodeBlocks headings n ++ blocksOf headings ns

/-- `_convert_content_to_markdown_with_toc`: join the nonempty entries with
blank lines (`'\n\n'.join(filter(None, markdown))`). -/
def convertContentToMarkdownWithToc (content : NodeList) (headings : List (Nat × String)) : String :=
  joinStr "\n\n" ((blocksOf headings content).filter strTruthy)

/-- `atlas_doc_to_markdown` for a parsed `doc` node: heading pre-scan, then
conversion with TOC injection (JSON parsing of the serialized form is
outside the model). -/
def atlasDocToMarkdown (content : NodeList) : String :=
  convertContentToMarkdownWithToc content (collectHeadings content)

end Downloader

namespace Uploader

/-! ## `MarkdownToStorageConverter` (`confluence_uploader.py`)

The inline regex pipeline of `_convert_inline` is embedded as left-to-right
scanners on character lists with the exact matching semantics of the source
patterns (leftmost match, lazy bodies, character classes stopping at the
first closer).  Every scanner takes a fuel argument called with the length
of its subject; each step consumes at least one subject character, so that
fuel is always sufficient. -/

/-- Split at the first occurrence of `stop`, returning the characters before
it and the remainder after it; the semantics of a regex class excluding the
stop character followed by the stop character. -/
def splitUntil (stop : Char) : List Char → Option (List Char × List Char)
  | [] => none
  | c :: cs =>
    if c = stop then some ([], cs)
    else
      match splitUntil stop cs with
      | some (a, b) => some (c :: a, b)
      | none => none

/-- Character-wise form of `_escape_xml` (lines 254-261); equal to the
source's four sequential replaces because no replacement entity contains a
character escaped by a later replace. -/
def escChar (c : Char) : List Char :=
  if c = '&' then "&amp;".data
  else if c = '<' then "&lt;".data
  else if c = '>' then "&gt;".data
  else if c = '"' then "&quot;".data
  else [c]

/-- `_escape_xml` on a character list. -/
def escapeChars (cs : List Char) : List Char :=
  cs.flatMap escChar

/-- `_escape_xml`. -/
def escapeXml (s : String) : String :=
  String.mk (escapeChars s.data)

/-- `os.path.basename` for forward-slash paths. -/
def basenameCh (path : List Char) : List Char :=
  (splitOnCh '/' path).getLastD path

/-- The optional width suffix of an image alt text, the anchored lazy
pattern splitting `alt|width=N` at the first bar followed by `width=` and a
nonempty all-digit remainder; the lazy group cannot contain a newline. -/
def widthSplit (pre : List Char) : List Char → Option (List Char × List Char)
  | [] => none
  | c :: rest =>
    if c = '\n' then none
    else if c = '|' && !pre.isEmpty && "width=".data.isPrefixOf rest
        && !(rest.drop 6).isEmpty && (rest.drop 6).all Char.isDigit then
      some (pre, rest.drop 6)
    else widthSplit (pre ++ [c]) rest

/-- Match an image `![alt](path)` at the head of the input: alt is
everything to the first `]` (may be empty), path everything to the first `)`
(nonempty). -/
def tryImage : List Char → Option (List Char × List Char × List Char)
  | c1 :: c2 :: rest =>
    if c1 = '!' && c2 = '[' then
      match splitUntil ']' rest with
      | some (alt, r2) =>
        (match r2 with
         | c3 :: r3 =>
           if c3 = '(' then
             match splitUntil ')' r3 with
             | some (path, r4) => if path.isEmpty then none else some (alt, path, r4)
             | none => none
           else none
         | [] => none)
      | none => none
    else none
  | _ => none

/-- The `replace_image` substitution (lines 208-224): escaped alt, optional
width attribute, escaped attachment basename. -/
def imageRepl (altRaw path : List Char) : List Char :=
  let filename := basenameCh path
  let widthAttr :=
    match widthSplit [] altRaw with
    | some (_, ds) => " ac:width=\"".data ++ ds ++ "\"".data
    | none => []
  let alt :=
    match widthSplit [] altRaw with
    | some (a, _) => a
    | none => altRaw
  "<ac:image ac:alt=\"".data ++ escapeChars alt ++ "\"".data ++ widthAttr
    ++ "><ri:attachment ri:filename=\"".data ++ escapeChars filename
    ++ "\"/></ac:image>".data

/-- The image pass, recording each matched path in order. -/
def scanImages : Nat → List Char → List String → List Char × List String
  | 0, cs, imgs => (cs, imgs)
  | _ + 1, [], imgs => ([], imgs)
  | f + 1, c :: cs, imgs =>
    match tryImage (c :: cs) with
    | some (alt, path, rest) =>
      let r := scanImages f rest (imgs ++ [String.mk path])
      (imageRepl alt path ++ r.1, r.2)
    | none =>
      let r := scanImages f cs imgs
      (c :: r.1, r.2)

/-- Match a link `[text](url)` at the head of the input (text and url
nonempty). -/
def tryLink : List Char → Option (List Char × List Char × List Char)
  | c1 :: rest =>
    if c1 = '[' then
      match splitUntil ']' rest with
      | some (txt, r2) =>
        if txt.isEmpty then none
        else
          (match r2 with
           | c3 :: r3 =>
             if c3 = '(' then
               match splitUntil ')' r3 with
               | some (url, r4) => if url.isEmpty then none else some (txt, url, r4)
               | none => none
             else none
           | [] => none)
      | none => none
    else none
  | [] => none

/-- The link pass: the href is escaped at emission, the link text is emitted
verbatim. -/
def scanLinks : Nat → List Char → List Char
  | 0, cs => cs
  | _ + 1, [] => []
  | f + 1, c :: cs =>
    match tryLink (c :: cs) with
    | some (txt, url, rest) =>
      "<a href=\"".data ++ escapeChars url ++ "\">".data ++ txt ++ "</a>".data
        ++ scanLinks f rest
    | none => c :: scanLinks f cs

/-- Lazy body of a delimited span: shortest nonempty newline-free run
followed by the closer, returning body and remainder after the closer. -/
def lazyBody (closer : List Char) : List Char → Option (List Char × List Char)
  | [] => none
  | c :: rest =>
    if c = '\n' then none
    else if closer.isPrefixOf rest then some ([c], rest.drop closer.length)
    else
      match lazyBody closer rest with
      | some (b, r) => some (c :: b, r)
      | none => none

/-- Match `opener (.+?) closer` at the head of the input. -/
def tryDelim (opener closer : List Char) (cs : List Char) : Option (List Char × List Char) :=
  if opener.isPrefixOf cs then lazyBody closer (cs.drop opener.length) else none

/-- Generic pass for the bold, italic-star and strikethrough substitutions. -/
def scanDelim (opener closer pre post : List Char) : Nat → List Char → List Char
  | 0, cs => cs
  | _ + 1, [] => []
  | f + 1, c :: cs =>
    match tryDelim opener closer (c :: cs) with
    | some (body, rest) => pre ++ body ++ post ++ scanDelim opener closer pre post f rest
    | none => c :: scanDelim opener closer pre post f cs

/-- Lazy body for the underscore-italic pattern: the closing `_` must not be
followed by a word character, and the engine extends the lazy group past a
rejected closer. -/
def lazyBodyUI : List Char → Option (List Char × List Char)
  | [] => none
  | c :: rest =>
    if c = '\n' then none
    else
      match rest with
      | '_' :: r2 =>
        if (match r2 with | d :: _ => !isWordChar d | [] => true) then some ([c], r2)
        else
          (match lazyBodyUI rest with
           | some (b, r) => some (c :: b, r)
           | none => none)
      | _ =>
        (match lazyBodyUI rest with
         | some (b, r) => some (c :: b, r)
         | none => none)

/-- Match the underscore-italic pattern with its look-behind (previous
subject character not a word character). -/
def tryUnderIt (prev : Option Char) : List Char → Option (List Char × List Char)
  | c1 :: rest =>
    if c1 = '_' then
      if (match prev with | some p => isWordChar p | none => false) then none
      else lazyBodyUI rest
    else none
  | [] => none

/-- The underscore-italic pass, tracking the previous subject character for
the look-behind. -/
def scanUI : Nat → Option Char → List Char → List Char
  | 0, _, cs => cs
  | _ + 1, _, [] => []
  | f + 1, prev, c :: cs =>
    match tryUnderIt prev (c :: cs) with
    | some (body, rest) => "<em>".data ++ body ++ "</em>".data ++ scanUI f (some '_') rest
    | none => c :: scanUI f (some c) cs

/-- Match an inline-code span at the head of the input: backtick, nonempty
run without backticks, backtick. -/
def tryCode : List Char → Option (List Char × List Char)
  | c1 :: rest =>
    if c1 = '`' then
      match splitUntil '`' rest with
      | some (body, r) => if body.isEmpty then none else some (body, r)
      | none => none
    else none
  | [] => none

/-- The inline-code pass. -/
def scanCode : Nat → List Char → List Char
  | 0, cs => cs
  | _ + 1, [] => []
  | f + 1, c :: cs =>
    match tryCode (c :: cs) with
    | some (body, rest) => "<code>".data ++ body ++ "</code>".data ++ scanCode f rest
    | none => c :: scanCode f cs

/-- Match `<br`, optional whitespace, optional slash, `>`. -/
def tryBr : List Char → Option (List Char)
  | c1 :: c2 :: c3 :: rest =>
    if c1 = '<' && c2 = 'b' && c3 = 'r' then
      match rest.dropWhile isSpaceChar with
      | '/' :: '>' :: r3 => some r3
      | '>' :: r3 => some r3
      | _ => none
    else none
  | _ => none

/-- The line-break normalisation pass. -/
def scanBr : Nat → List Char → List Char
  | 0, cs => cs
  | _ + 1, [] => []
  | f + 1, c :: cs =>
    match tryBr (c :: cs) with
    | some rest => "<br/>".data ++ scanBr f rest
    | none => c :: scanBr f cs

/-- `_convert_inline` (lines 205-252): the fixed substitution order images,
links, bold (star then underscore), italic (star then underscore),
strikethrough, inline code, `<br>` normalisation; returns the converted
text and the image list with the matched paths appended in order. -/
def convertInline (s : String) (imgs : List String) : String × List String :=
  let cs0 := s.data
  let r1 := scanImages cs0.length cs0 imgs
  let cs1 := r1.1
  let cs2 := scanLinks cs1.length cs1
  let cs3 := scanDelim "**".data "**".data "<strong>".data "</strong>".data cs2.length cs2
  let cs4 := scanDelim "__".data "__".data "<strong>".data "</strong>".data cs3.length cs3
  let cs5 := scanDelim "*".data "*".data "<em>".data "</em>".data cs4.length cs4
  let cs6 := scanUI cs5.length none cs5
  let cs7 := scanDelim "~~".data "~~".data "<del>".data "</del>".data cs6.length cs6
  let cs8 := scanCode cs7.length cs7
  let cs9 := scanBr cs8.length cs8
  (String.mk cs9, r1.2)

/-! ## Block scanner (`convert`, lines 52-117) -/

/-- `markdown_text.split('\n')`. -/
def splitLines (s : String) : List String :=
  (splitOnCh '\n' s.data).map String.mk

/-- The stripped line is at least three dashes (`^---+\s*$` after strip). -/
def isHrChars (cs : List Char) : Bool :=
  cs.length ≥ 3 && cs.all (· = '-')

/-- The group semantics of `\s+(.+)$` on a newline-free remainder: at least
one leading whitespace character and at least one character for the group,
which is the remainder after the whitespace run if nonempty, otherwise the
final whitespace character given back by backtracking. -/
def spaceThenText : List Char → Option (List Char)
  | [] => none
  | c :: rest =>
    if isSpaceChar c then
      let r := (c :: rest).dropWhile isSpaceChar
      if !r.isEmpty then some r
      else if rest.isEmpty then none
      else some [(c :: rest).getLastD ' ']
    else none

/-- The heading pattern `^(#{1,6})\s+(.+)$` on a raw line. -/
def matchHeading (line : String) : Option (Nat × String) :=
  let cs := line.data
  let k := (cs.takeWhile (· = '#')).length
  if 1 ≤ k ∧ k ≤ 6 then
    match spaceThenText (cs.drop k) with
    | some t => some (k, String.mk t)
    | none => none
  else none

/-- The unordered-list dispatch pattern `^[\s]*[-*+]\s`. -/
def isUlistLine (line : String) : Bool :=
  match line.data.dropWhile isSpaceChar with
  | m :: c :: _ => (m = '-' || m = '*' || m = '+') && isSpaceChar c
  | _ => false

/-- The ordered-list dispatch pattern `^[\s]*\d+\.\s`. -/
def isOlistLine (line : String) : Bool :=
  let r := line.data.dropWhile isSpaceChar
  let ds := r.takeWhile Char.isDigit
  !ds.isEmpty &&
    (match r.drop ds.length with
     | '.' :: c :: _ => isSpaceChar c
     | _ => false)

/-- The table separator pattern `^[\s|:-]+$` checked on the next line. -/
def isSepLine (s : String) : Bool :=
  !s.data.isEmpty && s.data.all (fun c => isSpaceChar c || c = '|' || c = ':' || c = '-')

/-- The block rule selected for a line by the dispatch chain of `convert`,
in source order: fenced code, horizontal rule, heading, table (needs the
next line), unordered list, ordered list, blockquote, blank, paragraph. -/
inductive BlockKind where
  | codeFence
  | hrule
  | heading
  | table
  | ulist
  | olist
  | bquote
  | blank
  | para
deriving DecidableEq

/-- The dispatch chain of `convert` (lines 59-115), first match wins. -/
def classify (line : String) (next : Option String) : BlockKind :=
  let st := trimChars line.data
  if ['`', '`', '`'].isPrefixOf st then .codeFence
  else if isHrChars st then .hrule
  else if (matchHeading line).isSome then .heading
  else if line.data.contains '|' && (match next with | some s => isSepLine s | none => false) then .table
  else if isUlistLine line then .ulist
  else if isOlistLine line then .olist
  else if ['>'].isPrefixOf st then .bquote
  else if st.isEmpty then .blank
  else .para

/-- The item pattern of `_parse_list`: `^[\s]*[-*+]\s+(.+)$`. -/
def matchUlistItem (line : String) : Option String :=
  match line.data.dropWhile isSpaceChar with
  | m :: rest =>
    if m = '-' || m = '*' || m = '+' then (spaceThenText rest).map String.mk else none
  | [] => none

/-- The item pattern of `_parse_list`: `^[\s]*\d+\.\s+(.+)$`. -/
def matchOlistItem (line : String) : Option String :=
  let r := line.data.dropWhile isSpaceChar
  let ds := r.takeWhile Char.isDigit
  if ds.isEmpty then none
  else
    match r.drop ds.length with
    | '.' :: rest => (spaceThenText rest).map String.mk
    | _ => none

/-- `line.strip().strip('|')`: strip whitespace, then all outer bars. -/
def stripPipes (cs : List Char) : List Char :=
  ((cs.dropWhile (· = '|')).reverse.dropWhile (· = '|')).reverse

/-- The cell texts of a table line:
`[c.strip() for c in line.strip().strip('|').split('|')]`. -/
def tableCellsOf (line : String) : List String :=
  (splitOnCh '|' (stripPipes (trimChars line.data))).map (fun g => String.mk (trimChars g))

/-- Render the cells of one table row, threading the image list through the
inline conversion of each cell in order. -/
def cellsHtml (tag : String) : List String → List String → String × List String
  | [], imgs => ("", imgs)
  | c :: cs, imgs =>
    let r := convertInline c imgs
    let rest := cellsHtml tag cs r.2
    ("<" ++ tag ++ ">" ++ r.1 ++ "</" ++ tag ++ ">" ++ rest.1, rest.2)

/-- The data-row loop of `_parse_table` (lines 164-170). -/
def tableLoop (lines : List String) : Nat → Nat → List String → List String → List String × Nat × List String
  | 0, i, rows, imgs => (rows, i, imgs)
  | f + 1, i, rows, imgs =>
    if i < lines.length && (lines.getD i "").data.contains '|' && strTruthy (pyStrip (lines.getD i "")) then
      let r := cellsHtml "td" (tableCellsOf (lines.getD i "")) imgs
      tableLoop lines f (i + 1) (rows ++ ["<tr>" ++ r.1 ++ "</tr>"]) r.2
    else (rows, i, imgs)

/-- `_parse_table` (lines 151-172). -/
def parseTable (lines : List String) (start : Nat) (imgs : List String) : String × Nat × List String :=
  let h := cellsHtml "th" (tableCellsOf (lines.getD start "")) imgs
  let r := tableLoop lines lines.length (start + 2) ["<tr>" ++ h.1 ++ "</tr>"] h.2
  ("<table>" ++ joinStr "" r.1 ++ "</table>", r.2.1, r.2.2)

/-- The body loop of `_parse_code_block` (lines 126-132). -/
def codeLoop (lines : List String) : Nat → Nat → List String → List String × Nat
  | 0, i, acc => (acc, i)
  | f + 1, i, acc =>
    if i < lines.length then
      if pyStrip (lines.getD i "") = "```" then (acc, i + 1)
      else codeLoop lines f (i + 1) (acc ++ [lines.getD i ""])
    else (acc, i)

/-- `_parse_code_block` (lines 119-149). -/
def parseCodeBlock (lines : List String) (start : Nat) : String × Nat :=
  let firstLine := pyStrip (lines.getD start "")
  let lang := String.mk ((firstLine.data.drop 3).takeWhile isWordChar)
  let r := codeLoop lines lines.length (start + 1) []
  let codeContent := joinStr "\n" r.1
  if strTruthy lang then
    ("<ac:structured-macro ac:name=\"code\"><ac:parameter ac:name=\"language\">" ++ lang
      ++ "</ac:parameter><ac:plain-text-body><![CDATA[" ++ codeContent
      ++ "]]></ac:plain-text-body></ac:structured-macro>", r.2)
  else
    ("<ac:structured-macro ac:name=\"code\"><ac:plain-text-body><![CDATA[" ++ codeContent
      ++ "]]></ac:plain-text-body></ac:structured-macro>", r.2)

/-- The item loop of `_parse_list` (lines 179-187); stops at the first line
not matching the item pattern, possibly without advancing. -/
def listLoop (lines : List String) (ordered : Bool) : Nat → Nat → List String → List String → List String × Nat × List String
  | 0, i, items, imgs => (items, i, imgs)
  | f + 1, i, items, imgs =>
    if i < lines.length then
      match (if ordered then matchOlistItem (lines.getD i "") else matchUlistItem (lines.getD i "")) with
      | some t =>
        let r := convertInline t imgs
        listLoop lines ordered f (i + 1) (items ++ [r.1]) r.2
      | none => (items, i, imgs)
    else (items, i, imgs)

/-- `_parse_list` (lines 174-190). -/
def parseList (lines : List String) (start : Nat) (ordered : Bool) (imgs : List String) : String × Nat × List String :=
  let tag := if ordered then "ol" else "ul"
  let r := listLoop lines ordered lines.length start [] imgs
  ("<" ++ tag ++ ">" ++ joinStr "" (r.1.map (fun it => "<li>" ++ it ++ "</li>")) ++ "</" ++ tag ++ ">",
    r.2.1, r.2.2)

/-- `re.sub(r'^>\s?', '', line)`: a leading `>` and at most one following
whitespace character are removed. -/
def stripBq (line : String) : String :=
  match line.data with
  | '>' :: c :: rest => if isSpaceChar c then String.mk rest else String.mk (c :: rest)
  | '>' :: [] => ""
  | _ => line

/-- The line loop of `_parse_blockquote` (lines 197-200). -/
def bqLoop (lines : List String) : Nat → Nat → List String → List String × Nat
  | 0, i, acc => (acc, i)
  | f + 1, i, acc =>
    if i < lines.length && ['>'].isPrefixOf (trimChars (lines.getD i "").data) then
      bqLoop lines f (i + 1) (acc ++ [stripBq (lines.getD i "")])
    else (acc, i)

/-- `_parse_blockquote` (lines 192-203). -/
def parseBlockquote (lines : List String) (start : Nat) (imgs : List String) : String × Nat × List String :=
  let r := bqLoop lines lines.length start []
  let inner := convertInline (joinStr "\n" r.1) imgs
  ("<blockquote><p>" ++ inner.1 ++ "</p></blockquote>", r.2, inner.2)

/-- The main scan loop of `convert`; the fuel models the `while i < len`
loop, and exhausted fuel (`none`) witnesses non-termination of the source
loop, which can fail to advance only inside `_parse_list`. -/
def convertAux (lines : List String) : Nat → Nat → List String → List String → Option (List String × List String)
  | 0, _, _, _ => none
  | f + 1, i, parts, imgs =>
    if i < lines.length then
      let line := lines.getD i ""
      match classify line (lines.get? (i + 1)) with
      | .codeFence =>
        let r := parseCodeBlock lines i
        convertAux lines f r.2 (parts ++ [r.1]) imgs
      | .hrule => convertAux lines f (i + 1) (parts ++ ["<hr/>"]) imgs
      | .heading =>
        (match matchHeading line with
         | some (k, t) =>
           let r := convertInline t imgs
           convertAux lines f (i + 1)
             (parts ++ ["<h" ++ toString k ++ ">" ++ r.1 ++ "</h" ++ toString k ++ ">"]) r.2
         | none => convertAux lines f (i + 1) parts imgs)
      | .table =>
        let r := parseTable lines i imgs
        convertAux lines f r.2.1 (parts ++ [r.1]) r.2.2
      | .ulist =>
        let r := parseList lines i false imgs
        convertAux lines f r.2.1 (parts ++ [r.1]) r.2.2
      | .olist =>
        let r := parseList lines i true imgs
        convertAux lines f r.2.1 (parts ++ [r.1]) r.2.2
      | .bquote =>
        let r := parseBlockquote lines i imgs
        convertAux lines f r.2.1 (parts ++ [r.1]) r.2.2
      | .blank => convertAux lines f (i + 1) parts imgs
      | .para =>
        let r := convertInline line imgs
        convertAux lines f (i + 1) (parts ++ ["<p>" ++ r.1 ++ "</p>"]) r.2
    else some (parts, imgs)

/-- `MarkdownToStorageConverter.convert`: `some (markup, images)` when the
scan loop reaches the end of the line list, `none` when it cannot (the fuel
`lines.length + 1` is exact whenever every handler advances the index). -/
def convert (markdownText : String) : Option (String × List String) :=
  let lines := splitLines markdownText
  match convertAux lines (lines.length + 1) 0 [] [] with
  | some (parts, imgs) => some (joinStr "\n" parts, imgs)
  | none => none

/-- The `convert` method on an instance whose `images` attribute holds the
residue of a previous call: line 54 (`self.images = []`) discards it before
scanning, so the argument is unused. -/
def convertMethod (_selfImages : List String) (markdownText : String) : Option (String × List String) :=
  convert markdownText

/-- The image occurrences of a raw text, by the parser's own image matcher
applied to the whole text; used to state which image paths "occur in" a
markdown text. -/
def imagePathsIn (s : String) : List String :=
  (scanImages s.data.length s.data []).2

/-- A character that triggers none of the inline substitution patterns;
used to isolate the link pass when stating where escaping happens. -/
def safeInlineChar (c : Char) : Bool :=
  !(c = '!' || c = '[' || c = ']' || c = '(' || c = ')' || c = '*' || c = '_'
    || c = '~' || c = '`' || c = '<' || c = '\n')

/-- A character safe inside an attribute-value subject (an image alt text or
path, a link href): it triggers no inline substitution pattern, but the
XML-special characters `&`, `<`, `>` and `"` are allowed, so the theorems
about attribute emission exercise the escaping of all four. -/
def safeAttrChar (c : Char) : Bool :=
  !(c = '!' || c = '[' || c = ']' || c = '(' || c = ')' || c = '*' || c = '_'
    || c = '~' || c = '`' || c = '\n')

/-- No `<` is immediately followed by `b`, so the `<br>` pass cannot fire. -/
def noBrTrigger : List Char → Bool
  | c :: d :: rest => (!(c = '<' && d = 'b')) && noBrTrigger (d :: rest)
  | _ => true

end Uploader

open Downloader Uploader

/-! ## Helper lemmas -/

/-- Induction over the sibling structure of a `NodeList` (no descent into
nodes), usable by the `induction` tactic. -/
@[induction_eliminator]
theorem Downloader.NodeList.inductionOn {motive : NodeList → Prop} (ns : NodeList)
    (nil : motive .nil) (cons : ∀ n tail, motive tail → motive (.cons n tail)) :
    motive ns :=
  match ns with
  | .nil => nil
  | .cons n tail => cons n tail (NodeList.inductionOn tail nil cons)

/-- The occupied-column loop is the identity on an empty tracker. -/
theorem consumeOccupied_nil (f col : Nat) (cells : List String) :
    consumeOccupied f [] col cells = ([], col, cells) := by
  cases f <;> simp [consumeOccupied, trackerGet]

/-- Over an empty tracker, a row whose cells all have rowspan 1 and positive
colspan keeps the tracker empty and appends exactly its total colspan many
cells. -/
theorem processCells_simple (ch : NodeList) :
    rowspanFreeN ch = true → ∀ (col : Nat) (cells : List String) (hdr : Bool),
      (processCells [] col cells hdr ch).1 = []
      ∧ (processCells [] col cells hdr ch).2.2.1.length = cells.length + rowColWidthN ch := by
  induction ch with
  | nil => intro _ col cells hdr; simp [processCells, rowColWidthN]
  | cons n ns ih =>
    intro h col cells hdr
    cases hn : cellAttrs n with
    | none =>
      have hns : rowspanFreeN ns = true := by
        simpa [rowspanFreeN, hn] using h
      have := ih hns col cells hdr
      simpa [processCells, hn, rowColWidthN] using this
    | some v =>
      obtain ⟨b, rs, cs⟩ := v
      have h1 : (rs = 1 ∧ 1 ≤ cs) ∧ rowspanFreeN ns = true := by
        simpa [rowspanFreeN, hn, Bool.and_eq_true, decide_eq_true_eq] using h
      obtain ⟨⟨hrs, hcs⟩, hns⟩ := h1
      subst hrs
      have hrec := ih hns
      simp only [processCells, hn, consumeOccupied_nil]
      have hone : ¬ (1 > 1) := by omega
      simp only [gt_iff_lt, lt_self_iff_false, if_false, hone, ite_false]
      have := hrec (col + (cs - 1) + 1)
        (cells ++
          [if pyStrip (pyReplace (pyReplace (extractCellContent n) "|" "\\|") "\n" " ") = ""
           then " "
           else pyStrip (pyReplace (pyReplace (extractCellContent n) "|" "\\|") "\n" " ")]
          ++ List.replicate (cs - 1) "") (hdr || b)
      refine ⟨this.1, ?_⟩
      rw [this.2]
      simp [rowColWidthN, hn]
      omega

/-- Over an empty tracker, `processRow` of a rowspan-free row returns an
empty tracker and exactly the row's total colspan many cells. -/
theorem processRow_simple (ch : NodeList) (h : rowspanFreeN ch = true) :
    (processRow [] ch).1 = [] ∧ (processRow [] ch).2.1.length = rowColWidthN ch := by
  have h2 := processCells_simple ch h 0 [] false
  simp only [processRow]
  rw [h2.1, consumeOccupied_nil]
  exact ⟨rfl, by simpa using h2.2⟩

/-- A row with no physical cell has total colspan 0. -/
theorem rowColWidthN_eq_zero (ch : NodeList) (h : hasCellN ch = false) :
    rowColWidthN ch = 0 := by
  induction ch with
  | nil => rfl
  | cons n ns ih =>
    cases hn : cellAttrs n with
    | none =>
      have : hasCellN ns = false := by simpa [hasCellN, hn] using h
      simp [rowColWidthN, hn, ih this]
    | some v =>
      exfalso
      simp [hasCellN, hn] at h

/-- Every placed grid row of a rowspan-free table of uniform width `W` has
exactly `W` cells. -/
theorem gridFold_simple (ns : NodeList) (W : Nat) :
    simpleTable ns = true → uniformWidth W ns = true →
    ∀ g ∈ gridFold ns [], g.length = W := by
  induction ns with
  | nil => intro _ _ g hg; simp [gridFold] at hg
  | cons node rest ih =>
    intro hs hu g hg
    cases hrow : node.asTableRow with
    | none =>
      have hs2 : simpleTable rest = true := by simpa [simpleTable, hrow] using hs
      have hu2 : uniformWidth W rest = true := by simpa [uniformWidth, hrow] using hu
      rw [gridFold, hrow] at hg
      exact ih hs2 hu2 g hg
    | some ch =>
      have hs1 : rowspanFreeN ch = true ∧ simpleTable rest = true := by
        simpa [simpleTable, hrow, Bool.and_eq_true] using hs
      have hu1 : (hasCellN ch = false ∨ rowColWidthN ch = W) ∧ uniformWidth W rest = true := by
        simpa [uniformWidth, hrow, Bool.and_eq_true, Bool.or_eq_true, decide_eq_true_eq] using hu
      have hpr := processRow_simple ch hs1.1
      rw [gridFold, hrow] at hg
      dsimp only at hg
      rw [hpr.1] at hg
      by_cases hc : (processRow [] ch).2.1.isEmpty
      · rw [if_pos hc] at hg
        exact ih hs1.2 hu1.2 g hg
      · rw [if_neg hc] at hg
        rw [List.mem_cons] at hg
        rcases hg with hg | hg
        · subst hg
          rw [hpr.2]
          rcases hu1.1 with hno | hW
          · exfalso
            have h0 := rowColWidthN_eq_zero ch hno
            have : (processRow [] ch).2.1 = [] := by
              have := hpr.2
              rw [h0] at this
              exact List.length_eq_zero.mp this
            simp [this] at hc
          · exact hW
        · exact ih hs1.2 hu1.2 g hg

/-- Once at least two rows have been accumulated, the row loop never inserts
another separator: it appends exactly the rendered placed rows. -/
theorem tableFold_noSep (ns : NodeList) :
    ∀ (idx : Nat) (tr : Tracker) (ihr : Bool) (rows0 : List String), 1 ≤ rows0.length →
    tableFold ns idx tr ihr rows0 = rows0 ++ (gridFold ns tr).map renderRow := by
  induction ns with
  | nil => intro idx tr ihr rows0 _; simp [tableFold, gridFold]
  | cons node rest ih =>
    intro idx tr ihr rows0 h
    cases hrow : node.asTableRow with
    | none =>
      rw [tableFold, gridFold, hrow]
      dsimp only
      exact ih (idx + 1) tr ihr rows0 h
    | some ch =>
      rw [tableFold, gridFold, hrow]
      dsimp only
      split_ifs with hc hcond
      · exact ih _ _ _ _ h
      · exfalso
        have hlen : (rows0 ++ [renderRow (processRow tr ch).2.1]).length = 1 := by
          have := (Bool.and_eq_true _ _).mp hcond
          exact of_decide_eq_true this.2
        simp at hlen
        subst hlen
        simp at h
      · rw [ih (idx + 1) (processRow tr ch).1 ihr
          (rows0 ++ [renderRow (processRow tr ch).2.1]) (by simp)]
        simp

/-- The physical-cell loop leaves the empty tracker and the accumulators
untouched on a row without physical cells. -/
theorem processCells_noCells (ch : NodeList) :
    ∀ (col : Nat) (cells : List String) (hdr : Bool), hasCellN ch = false →
    processCells [] col cells hdr ch = ([], col, cells, hdr) := by
  induction ch with
  | nil => intro col cells hdr _; rfl
  | cons n ns ih =>
    intro col cells hdr h
    rw [hasCellN] at h
    have h2 := (Bool.or_eq_false_iff.mp h)
    have hnone : cellAttrs n = none := by
      cases hx : cellAttrs n with
      | none => rfl
      | some v =>
        rw [hx] at h2
        simp at h2
    rw [processCells, hnone]
    exact ih col cells hdr h2.2

/-- A `tableRow` without physical cells, entered with an empty tracker,
places no cells, keeps the tracker empty and carries no header flag. -/
theorem processRow_noCells (ch : NodeList) (h : hasCellN ch = false) :
    processRow [] ch = ([], [], false) := by
  rw [processRow, processCells_noCells ch 0 [] false h]
  rfl

/-- The row loop skips an inert prefix, only advancing the child index. -/
theorem tableFold_inert (pre : List Node) (h : ∀ n ∈ pre, inertNode n = true) :
    ∀ (k : Nat) (ns : NodeList),
    tableFold (nlApp pre ns) k [] true [] = tableFold ns (k + pre.length) [] true [] := by
  induction pre with
  | nil => intro k ns; simp [nlApp]
  | cons m l ih =>
    intro k ns
    have hm := h m (by simp)
    have hl : ∀ n ∈ l, inertNode n = true := fun n hn => h n (by simp [hn])
    show tableFold (.cons m (nlApp l ns)) k [] true [] = _
    have hidx : k + 1 + l.length = k + (m :: l).length := by
      simp [List.length_cons]
      omega
    cases hrow : m.asTableRow with
    | none =>
      rw [tableFold, hrow]
      dsimp only
      rw [ih hl (k + 1) ns, hidx]
    | some ch =>
      rw [inertNode, hrow] at hm
      have hcells := processRow_noCells ch (by simpa using hm)
      rw [tableFold, hrow]
      dsimp only
      rw [hcells]
      dsimp only
      rw [if_pos (by simp : ([] : List String).isEmpty = true)]
      rw [ih hl (k + 1) ns, hidx]

/-- The grid fold likewise skips an inert prefix. -/
theorem gridFold_inert (pre : List Node) (h : ∀ n ∈ pre, inertNode n = true) :
    ∀ (ns : NodeList), gridFold (nlApp pre ns) [] = gridFold ns [] := by
  induction pre with
  | nil => intro ns; simp [nlApp]
  | cons m l ih =>
    intro ns
    have hm := h m (by simp)
    have hl : ∀ n ∈ l, inertNode n = true := fun n hn => h n (by simp [hn])
    show gridFold (.cons m (nlApp l ns)) [] = _
    cases hrow : m.asTableRow with
    | none =>
      rw [gridFold, hrow]
      dsimp only
      exact ih hl ns
    | some ch =>
      rw [inertNode, hrow] at hm
      have hcells := processRow_noCells ch (by simpa using hm)
      rw [gridFold, hrow]
      dsimp only
      rw [hcells]
      dsimp only
      rw [if_pos (by simp : ([] : List String).isEmpty = true)]
      exact ih hl ns

/-- Dropping from the right commutes with a non-dropped head. -/
theorem rdropWhileCh_cons (p : Char → Bool) (c : Char) (cs : List Char) (hc : p c = false) :
    rdropWhileCh p (c :: cs) = c :: rdropWhileCh p cs := by
  unfold rdropWhileCh
  rw [List.reverse_cons, List.dropWhile_append]
  by_cases he : (List.dropWhile p cs.reverse).isEmpty
  · rw [if_pos he]
    have h2 : List.dropWhile p cs.reverse = [] := by simpa [List.isEmpty_iff] using he
    simp [List.dropWhile_cons, hc, h2]
  · rw [if_neg he]
    simp

/-- Python strip on a list with a non-whitespace head keeps the head. -/
theorem trimChars_cons (c : Char) (cs : List Char) (hc : isSpaceChar c = false) :
    trimChars (c :: cs) = c :: rdropWhileCh isSpaceChar cs := by
  unfold trimChars
  rw [List.dropWhile_cons, if_neg (by simp [hc])]
  exact rdropWhileCh_cons _ c cs hc

/-- The leading hash run of a rendered heading line is its hash prefix. -/
theorem takeWhile_hash_app (L : Nat) (t : List Char) :
    (List.replicate L '#' ++ ' ' :: t).takeWhile (· = '#') = List.replicate L '#' := by
  induction L with
  | zero => simp [List.takeWhile_cons]
  | succ l ih => simp [List.replicate_succ, List.takeWhile_cons, ih]

/-- The leading digit run of a rendered ordered-item line is its digit
prefix. -/
theorem takeWhile_digit_app (ds t : List Char) (h : ∀ d ∈ ds, d.isDigit = true) :
    (ds ++ '.' :: t).takeWhile Char.isDigit = ds := by
  induction ds with
  | nil => simp [List.takeWhile_cons]
  | cons d rest ih =>
    have hd := h d (by simp)
    simp only [List.cons_append, List.takeWhile_cons, hd, if_true]
    rw [ih (fun x hx => h x (by simp [hx]))]

/-- A digit character is none of the dispatch-significant characters. -/
theorem digit_char_facts (d : Char) (h : d.isDigit = true) :
    isSpaceChar d = false ∧ d ≠ '#' ∧ d ≠ '`' ∧ d ≠ '-' ∧ d ≠ '*' ∧ d ≠ '+'
      ∧ d ≠ '>' ∧ d ≠ '|' := by
  refine ⟨?_, ?_, ?_, ?_, ?_, ?_, ?_, ?_⟩
  · by_contra hs
    have hs2 : isSpaceChar d = true := by
      cases hval : isSpaceChar d
      · exact absurd hval hs
      · rfl
    unfold isSpaceChar at hs2
    rcases Bool.or_eq_true_iff.mp hs2 with h6 | h6
    rotate_left
    · have : d = '\x0c' := by exact_mod_cast of_decide_eq_true h6
      rw [this] at h; simp [Char.isDigit] at h
    rcases Bool.or_eq_true_iff.mp h6 with h5 | h5
    rotate_left
    · have : d = '\x0b' := by exact_mod_cast of_decide_eq_true h5
      rw [this] at h; simp [Char.isDigit] at h
    rcases Bool.or_eq_true_iff.mp h5 with h4 | h4
    rotate_left
    · have : d = '\r' := by exact_mod_cast of_decide_eq_true h4
      rw [this] at h; simp [Char.isDigit] at h
    rcases Bool.or_eq_true_iff.mp h4 with h3 | h3
    rotate_left
    · have : d = '\n' := by exact_mod_cast of_decide_eq_true h3
      rw [this] at h; simp [Char.isDigit] at h
    rcases Bool.or_eq_true_iff.mp h3 with h2 | h2
    · have : d = ' ' := by exact_mod_cast of_decide_eq_true h2
      rw [this] at h; simp [Char.isDigit] at h
    · have : d = '\t' := by exact_mod_cast of_decide_eq_true h2
      rw [this] at h; simp [Char.isDigit] at h
  all_goals intro he; rw [he] at h; simp [Char.isDigit] at h

/-- A nonempty stripped string has a nonempty whitespace-free head part. -/
theorem dropWhile_ne_nil_of_pyStrip (t : String) (h : pyStrip t ≠ "") :
    t.data.dropWhile isSpaceChar ≠ [] := by
  intro he
  apply h
  show String.mk (trimChars t.data) = ""
  unfold trimChars
  rw [he]
  rfl

/-- Every character of the cell-joined core of a separator row is a space,
a bar or a dash. -/
theorem joinStr_mem_chars (sep : String) (l : List String) (P : Char → Prop)
    (hsep : ∀ c ∈ sep.data, P c) (hl : ∀ s ∈ l, ∀ c ∈ s.data, P c) :
    ∀ c ∈ (joinStr sep l).data, P c := by
  induction l with
  | nil => intro c hc; simp [joinStr] at hc
  | cons x rest ih =>
    cases rest with
    | nil =>
      intro c hc
      exact hl x (by simp) c (by simpa [joinStr] using hc)
    | cons y rest2 =>
      intro c hc
      rw [joinStr, String.data_append, String.data_append] at hc
      rcases List.mem_append.mp hc with h2 | h2
      · rcases List.mem_append.mp h2 with h3 | h3
        · exact hl x (by simp) c h3
        · exact hsep c h3
      · exact ih (fun s hs => hl s (by simp [hs])) c h2

/-- Every character of the cell-joined core of a separator row is a space,
a bar or a dash. -/
theorem joinStr_sep_chars (m : Nat) :
    ∀ c ∈ (joinStr " | " (List.replicate m "---")).data, c = ' ' ∨ c = '|' ∨ c = '-' :=
  joinStr_mem_chars " | " (List.replicate m "---") _
    (by decide)
    (fun s hs => by rw [List.eq_of_mem_replicate hs]; decide)

/-- A marker prefix fails on a line opening with a different character. -/
theorem prefixMarker_false (a c : Char) (as r : List Char) (h : ¬ a = c) :
    ((a :: as).isPrefixOf (c :: r)) = false := by
  show ((a == c) && (as.isPrefixOf r)) = false
  rw [beq_eq_false_iff_ne.mpr h, Bool.false_and]

/-- The horizontal-rule shape fails on a line opening with a non-dash. -/
theorem isHrChars_head_false (c : Char) (r : List Char) (h : ¬ c = '-') :
    isHrChars (c :: r) = false := by
  unfold isHrChars
  have hall : (c :: r).all (· = '-') = false := by
    simp [List.all_cons, h]
  rw [hall, Bool.and_false]

/-- The heading pattern fails on a line opening with a non-hash. -/
theorem matchHeading_none_of_head (line : String) (c : Char) (r : List Char)
    (hdata : line.data = c :: r) (h : ¬ c = '#') :
    matchHeading line = none := by
  simp only [matchHeading, hdata]
  rw [List.takeWhile_cons, if_neg (by simp [h])]

/-- A list without bars does not contain a bar. -/
theorem contains_pipe_false (cs : List Char) (h : ∀ x ∈ cs, x ≠ '|') :
    cs.contains '|' = false := by
  induction cs with
  | nil => rfl
  | cons x xs ih =>
    have hx : ¬ ('|' = x) := fun he => h x (by simp) he.symm
    show (('|' == x) || xs.contains '|') = false
    rw [beq_eq_false_iff_ne.mpr hx, Bool.false_or]
    exact ih (fun y hy => h y (by simp [hy]))

/-- The unordered-list dispatch fails on a line opening with a
non-whitespace non-marker character. -/
theorem isUlistLine_false_of_head (line : String) (c : Char) (r : List Char)
    (hdata : line.data = c :: r) (hws : isSpaceChar c = false)
    (h1 : ¬ c = '-') (h2 : ¬ c = '*') (h3 : ¬ c = '+') :
    isUlistLine line = false := by
  unfold isUlistLine
  rw [hdata, List.dropWhile_cons, if_neg (by simp [hws])]
  cases r with
  | nil => rfl
  | cons c2 r2 =>
    show ((decide (c = '-') || decide (c = '*') || decide (c = '+')) && isSpaceChar c2) = false
    simp [h1, h2, h3]

/-- The ordered-list dispatch fails on a line opening with a non-whitespace
non-digit character. -/
theorem isOlistLine_false_of_head (line : String) (c : Char) (r : List Char)
    (hdata : line.data = c :: r) (hws : isSpaceChar c = false) (hdig : c.isDigit = false) :
    isOlistLine line = false := by
  simp only [isOlistLine, hdata]
  rw [List.dropWhile_cons, if_neg (by simp [hws]), List.takeWhile_cons,
    if_neg (by simp [hdig])]
  simp

/-- A line whose first character is none of the block-marker characters and
that contains no bar falls to the paragraph rule. -/
theorem classify_para_of_head (line : String) (next : Option String) (c : Char) (r : List Char)
    (hdata : line.data = c :: r)
    (hws : isSpaceChar c = false)
    (hbt : c ≠ '`') (hdash : c ≠ '-') (hhash : c ≠ '#') (hstar : c ≠ '*') (hplus : c ≠ '+')
    (hgt : c ≠ '>') (hdig : c.isDigit = false)
    (hpipe : ∀ x ∈ line.data, x ≠ '|') :
    classify line next = .para := by
  have htrim : trimChars line.data = c :: rdropWhileCh isSpaceChar r := by
    rw [hdata]; exact trimChars_cons c r hws
  have hcont : line.data.contains '|' = false := by
    rw [hdata]
    exact contains_pipe_false _ (by rw [← hdata]; exact hpipe)
  simp only [classify]
  rw [htrim]
  rw [if_neg (by simp [prefixMarker_false '`' c ['`', '`'] _ (fun he => hbt he.symm)])]
  rw [if_neg (by simp [isHrChars_head_false c _ hdash])]
  rw [if_neg (by simp [matchHeading_none_of_head line c r hdata hhash])]
  have htab : (line.data.contains '|'
      && (match next with | some s => isSepLine s | none => false)) = false := by
    rw [hcont, Bool.false_and]
  rw [if_neg (fun hx => Bool.false_ne_true (htab ▸ hx))]
  rw [if_neg (by simp [isUlistLine_false_of_head line c r hdata hws hdash hstar hplus])]
  rw [if_neg (by simp [isOlistLine_false_of_head line c r hdata hws hdig])]
  rw [if_neg (by simp [prefixMarker_false '>' c [] _ (fun he => hgt he.symm)])]
  rw [if_neg (by simp)]

/-- The heading regex on a rendered heading line: level is the hash count,
group two the line remainder after the whitespace run. -/
theorem matchHeading_of_shape (L : Nat) (t : String) (h1 : 1 ≤ L) (h2 : L ≤ 6)
    (h3 : t.data.dropWhile isSpaceChar ≠ []) :
    matchHeading (String.mk (List.replicate L '#') ++ " " ++ t)
      = some (L, String.mk (t.data.dropWhile isSpaceChar)) := by
  have hdata : (String.mk (List.replicate L '#') ++ " " ++ t).data
      = List.replicate L '#' ++ ' ' :: t.data := by
    rw [String.data_append, String.data_append]
    show List.replicate L '#' ++ [' '] ++ t.data = _
    simp
  simp only [matchHeading, hdata]
  rw [takeWhile_hash_app, List.length_replicate]
  rw [if_pos ⟨h1, h2⟩]
  have hdrop : List.drop L (List.replicate L '#' ++ ' ' :: t.data) = ' ' :: t.data := by
    have := List.drop_left (List.replicate L '#') (' ' :: t.data)
    rwa [List.length_replicate] at this
  rw [hdrop]
  have hst : spaceThenText (' ' :: t.data) = some (List.dropWhile isSpaceChar t.data) := by
    unfold spaceThenText
    dsimp only
    rw [if_pos (show isSpaceChar ' ' = true by decide)]
    rw [List.dropWhile_cons]
    rw [if_pos (show isSpaceChar ' ' = true by decide)]
    rw [if_pos (show (!(List.dropWhile isSpaceChar t.data).isEmpty) = true by
      simpa [List.isEmpty_iff] using h3)]
  rw [hst]

/-- A rendered heading line of level 1 to 6 with nonempty stripped text is
dispatched to the heading rule. -/
theorem classify_heading_line (L : Nat) (t : String) (nxt : Option String)
    (h1 : 1 ≤ L) (h2 : L ≤ 6) (h3 : pyStrip t ≠ "") :
    classify (String.mk (List.replicate L '#') ++ " " ++ t) nxt = .heading := by
  obtain ⟨l, rfl⟩ : ∃ l, L = l + 1 := ⟨L - 1, by omega⟩
  have hdata : (String.mk (List.replicate (l + 1) '#') ++ " " ++ t).data
      = '#' :: (List.replicate l '#' ++ ' ' :: t.data) := by
    rw [String.data_append, String.data_append]
    show List.replicate (l + 1) '#' ++ [' '] ++ t.data = _
    rw [List.replicate_succ]
    simp
  have htrim : trimChars (String.mk (List.replicate (l + 1) '#') ++ " " ++ t).data
      = '#' :: rdropWhileCh isSpaceChar (List.replicate l '#' ++ ' ' :: t.data) := by
    rw [hdata]
    exact trimChars_cons _ _ (by decide)
  have hmh := matchHeading_of_shape (l + 1) t h1 h2 (dropWhile_ne_nil_of_pyStrip t h3)
  simp only [classify]
  rw [htrim]
  rw [if_neg (by simp [prefixMarker_false '`' '#' ['`', '`'] _ (by decide)])]
  rw [if_neg (by simp [isHrChars_head_false '#' _ (by decide)])]
  rw [if_pos (by simp [hmh])]

/-- A rendered ordered-item line (digits, dot, space, item text without
bars) is dispatched to the ordered-list rule. -/
theorem classify_olist_line (ds : List Char) (t : String) (nxt : Option String)
    (hne : ds ≠ []) (hdig : ∀ d ∈ ds, d.isDigit = true)
    (hpipe : ∀ x ∈ t.data, x ≠ '|') :
    classify (String.mk ds ++ ". " ++ t) nxt = .olist := by
  obtain ⟨d, ds2, rfl⟩ : ∃ d ds2, ds = d :: ds2 := by
    cases ds with
    | nil => exact absurd rfl hne
    | cons d ds2 => exact ⟨d, ds2, rfl⟩
  obtain ⟨hdws, hdhash, hdbt, hddash, hdstar, hdplus, hdgt, hdpipe⟩ :=
    digit_char_facts d (hdig d (by simp))
  have hdata : (String.mk (d :: ds2) ++ ". " ++ t).data
      = d :: (ds2 ++ '.' :: ' ' :: t.data) := by
    rw [String.data_append, String.data_append]
    show (d :: ds2) ++ ['.', ' '] ++ t.data = _
    simp
  have htrim : trimChars (String.mk (d :: ds2) ++ ". " ++ t).data
      = d :: rdropWhileCh isSpaceChar (ds2 ++ '.' :: ' ' :: t.data) := by
    rw [hdata]
    exact trimChars_cons _ _ hdws
  have hcont : (String.mk (d :: ds2) ++ ". " ++ t).data.contains '|' = false := by
    rw [hdata]
    apply contains_pipe_false
    intro x hx
    rcases List.mem_cons.mp hx with hx | hx
    · rw [hx]; exact hdpipe
    rcases List.mem_append.mp hx with hx | hx
    · exact (digit_char_facts x (hdig x (by simp [hx]))).2.2.2.2.2.2.2
    rcases List.mem_cons.mp hx with hx | hx
    · rw [hx]; decide
    rcases List.mem_cons.mp hx with hx | hx
    · rw [hx]; decide
    · exact hpipe x hx
  have holist : isOlistLine (String.mk (d :: ds2) ++ ". " ++ t) = true := by
    simp only [isOlistLine, hdata]
    rw [List.dropWhile_cons, if_neg (by simp [hdws])]
    have htw : (d :: (ds2 ++ '.' :: ' ' :: t.data)).takeWhile Char.isDigit
        = d :: ds2 := by
      have := takeWhile_digit_app (d :: ds2) (' ' :: t.data) hdig
      simpa using this
    rw [htw]
    rw [show List.drop (d :: ds2).length (d :: (ds2 ++ '.' :: ' ' :: t.data))
        = List.drop (d :: ds2).length ((d :: ds2) ++ '.' :: ' ' :: t.data) from rfl]
    rw [List.drop_left]
    simp
    decide
  simp only [classify]
  rw [htrim]
  rw [if_neg (by simp [prefixMarker_false '`' d ['`', '`'] _ (fun he => hdbt he.symm)])]
  rw [if_neg (by simp [isHrChars_head_false d _ hddash])]
  rw [if_neg (by simp [matchHeading_none_of_head _ d _ hdata hdhash])]
  have htab : ((String.mk (d :: ds2) ++ ". " ++ t).data.contains '|'
      && (match nxt with | some s => isSepLine s | none => false)) = false := by
    rw [hcont, Bool.false_and]
  rw [if_neg (fun hx => Bool.false_ne_true (htab ▸ hx))]
  rw [if_neg (by simp [isUlistLine_false_of_head _ d _ hdata hdws hddash hdstar hdplus])]
  rw [if_pos (by simp [holist])]

/-- A rendered code-fence opening line is dispatched to the code rule. -/
theorem classify_fence_line (lang : String) (nxt : Option String) :
    classify ("```" ++ lang) nxt = .codeFence := by
  have hdata : ("```" ++ lang).data = '`' :: '`' :: '`' :: lang.data := by
    rw [String.data_append]
    rfl
  have htrim : trimChars ("```" ++ lang).data
      = '`' :: '`' :: '`' :: rdropWhileCh isSpaceChar lang.data := by
    rw [hdata, trimChars_cons _ _ (by decide), rdropWhileCh_cons _ _ _ (by decide),
      rdropWhileCh_cons _ _ _ (by decide)]
  simp only [classify]
  rw [htrim]
  rw [if_pos (by simp [List.isPrefixOf])]

/-- A rendered table row line followed by a rendered separator row is
dispatched to the table rule. -/
theorem classify_table_line (cells : List String) (m : Nat) :
    classify (renderRow cells) (some (renderRow (List.replicate m "---"))) = .table := by
  have hdata : (renderRow cells).data
      = '|' :: ' ' :: ((joinStr " | " cells).data ++ [' ', '|']) := by
    show ("| " ++ joinStr " | " cells ++ " |").data = _
    rw [String.data_append, String.data_append]
    rfl
  have htrim : trimChars (renderRow cells).data
      = '|' :: rdropWhileCh isSpaceChar (' ' :: ((joinStr " | " cells).data ++ [' ', '|'])) := by
    rw [hdata]
    exact trimChars_cons _ _ (by decide)
  have hcont : (renderRow cells).data.contains '|' = true := by
    rw [hdata]
    show (('|' == '|')
      || (' ' :: ((joinStr " | " cells).data ++ [' ', '|'])).contains '|') = true
    rw [beq_self_eq_true]
    rw [Bool.true_or]
  have hsep : isSepLine (renderRow (List.replicate m "---")) = true := by
    have hdata2 : (renderRow (List.replicate m "---")).data
        = '|' :: ' ' :: ((joinStr " | " (List.replicate m "---")).data ++ [' ', '|']) := by
      show ("| " ++ joinStr " | " (List.replicate m "---") ++ " |").data = _
      rw [String.data_append, String.data_append]
      rfl
    unfold isSepLine
    rw [hdata2]
    refine (Bool.and_eq_true _ _).mpr ⟨by simp, ?_⟩
    rw [List.all_eq_true]
    intro x hx
    rcases List.mem_cons.mp hx with hx | hx
    · rw [hx]; decide
    rcases List.mem_cons.mp hx with hx | hx
    · rw [hx]; decide
    rcases List.mem_append.mp hx with hx | hx
    · rcases joinStr_sep_chars m x hx with h | h | h <;> rw [h] <;> decide
    · rcases List.mem_cons.mp hx with hx | hx
      · rw [hx]; decide
      · rcases List.mem_cons.mp hx with hx | hx
        · rw [hx]; decide
        · simp at hx
  simp only [classify]
  rw [htrim]
  rw [if_neg (by simp [prefixMarker_false '`' '|' ['`', '`'] _ (by decide)])]
  rw [if_neg (by simp [isHrChars_head_false '|' _ (by decide)])]
  rw [if_neg (by simp [matchHeading_none_of_head _ '|' _ hdata (by decide)])]
  rw [if_pos (by rw [hcont, hsep]; rfl)]

/-- A rendered bullet line (the renderer's unordered item form) without
bars is dispatched to the paragraph rule. -/
theorem classify_bullet_line (t : String) (nxt : Option String)
    (hpipe : ∀ x ∈ t.data, x ≠ '|') :
    classify ("• " ++ t) nxt = .para := by
  apply classify_para_of_head _ nxt '•' (' ' :: t.data)
  · rw [String.data_append]; rfl
  · decide
  · decide
  · decide
  · decide
  · decide
  · decide
  · decide
  · decide
  · intro x hx
    rw [String.data_append] at hx
    have hx2 : x = '•' ∨ x = ' ' ∨ x ∈ t.data := by simpa using hx
    rcases hx2 with h | h | h
    · rw [h]; decide
    · rw [h]; decide
    · exact hpipe x h

/-- The class split finds the first stop character. -/
theorem splitUntil_append (stop : Char) (xs ys : List Char) (h : ∀ c ∈ xs, c ≠ stop) :
    splitUntil stop (xs ++ stop :: ys) = some (xs, ys) := by
  induction xs with
  | nil => simp [splitUntil]
  | cons x xs2 ih =>
    have hx : ¬ (x = stop) := h x (by simp)
    rw [List.cons_append]
    simp only [splitUntil]
    rw [if_neg hx, ih (fun c hc => h c (by simp [hc]))]

/-- The image pass is the identity without a bang character. -/
theorem scanImages_id (f : Nat) (cs : List Char) (imgs : List String)
    (h : ∀ c ∈ cs, c ≠ '!') : scanImages f cs imgs = (cs, imgs) := by
  induction f generalizing cs with
  | zero => rfl
  | succ n ih =>
    cases cs with
    | nil => rfl
    | cons c rest =>
      have hm : tryImage (c :: rest) = none := by
        cases rest with
        | nil => rfl
        | cons c2 r2 => simp [tryImage, h c (by simp)]
      simp [scanImages, hm, ih rest (fun x hx => h x (by simp [hx]))]

/-- The link pass is the identity without an opening bracket. -/
theorem scanLinks_id (f : Nat) (cs : List Char)
    (h : ∀ c ∈ cs, c ≠ '[') : scanLinks f cs = cs := by
  induction f generalizing cs with
  | zero => rfl
  | succ n ih =>
    cases cs with
    | nil => rfl
    | cons c rest =>
      have hm : tryLink (c :: rest) = none := by
        simp [tryLink, h c (by simp)]
      simp [scanLinks, hm, ih rest (fun x hx => h x (by simp [hx]))]

/-- A delimiter pass is the identity without its opening character. -/
theorem scanDelim_id (a : Char) (as closer pre post : List Char) (f : Nat) (cs : List Char)
    (h : ∀ c ∈ cs, c ≠ a) : scanDelim (a :: as) closer pre post f cs = cs := by
  induction f generalizing cs with
  | zero => rfl
  | succ n ih =>
    cases cs with
    | nil => rfl
    | cons c rest =>
      have hm : tryDelim (a :: as) closer (c :: rest) = none := by
        unfold tryDelim
        rw [if_neg (by
          simp [prefixMarker_false a c as rest (fun he => (h c (by simp)) he.symm)])]
      simp [scanDelim, hm, ih rest (fun x hx => h x (by simp [hx]))]

/-- The underscore-italic pass is the identity without an underscore. -/
theorem scanUI_id (f : Nat) (prev : Option Char) (cs : List Char)
    (h : ∀ c ∈ cs, c ≠ '_') : scanUI f prev cs = cs := by
  induction f generalizing prev cs with
  | zero => rfl
  | succ n ih =>
    cases cs with
    | nil => rfl
    | cons c rest =>
      have hm : tryUnderIt prev (c :: rest) = none := by
        simp [tryUnderIt, h c (by simp)]
      simp [scanUI, hm, ih (some c) rest (fun x hx => h x (by simp [hx]))]

/-- The inline-code pass is the identity without a backtick. -/
theorem scanCode_id (f : Nat) (cs : List Char)
    (h : ∀ c ∈ cs, c ≠ '`') : scanCode f cs = cs := by
  induction f generalizing cs with
  | zero => rfl
  | succ n ih =>
    cases cs with
    | nil => rfl
    | cons c rest =>
      have hm : tryCode (c :: rest) = none := by
        simp [tryCode, h c (by simp)]
      simp [scanCode, hm, ih rest (fun x hx => h x (by simp [hx]))]

/-- A non-`<` head does not affect the `<br>` trigger condition. -/
theorem noBrTrigger_cons_ne (c : Char) (cs : List Char) (hc : c ≠ '<') :
    noBrTrigger (c :: cs) = noBrTrigger cs := by
  cases cs with
  | nil => rfl
  | cons d rest => simp [noBrTrigger, hc]

/-- The `<br>` trigger condition over an append with a `<`-free prefix. -/
theorem noBrTrigger_append (xs ys : List Char) (h1 : ∀ c ∈ xs, c ≠ '<')
    (h2 : noBrTrigger ys = true) : noBrTrigger (xs ++ ys) = true := by
  induction xs with
  | nil => simpa using h2
  | cons x xs2 ih =>
    rw [List.cons_append, noBrTrigger_cons_ne x _ (h1 x (by simp))]
    exact ih (fun c hc => h1 c (by simp [hc]))

/-- The `<br>` pass is the identity when no `<` is followed by `b`. -/
theorem scanBr_id (f : Nat) (cs : List Char) (h : noBrTrigger cs = true) :
    scanBr f cs = cs := by
  induction f generalizing cs with
  | zero => rfl
  | succ n ih =>
    cases cs with
    | nil => rfl
    | cons c rest =>
      cases rest with
      | nil =>
        show (match tryBr [c] with
          | some rest2 => "<br/>".data ++ scanBr n rest2
          | none => c :: scanBr n []) = [c]
        rw [show tryBr [c] = none from rfl]
        rw [show scanBr n ([] : List Char) = [] by cases n <;> rfl]
      | cons c2 r2 =>
        have hsplit : (!(c = '<' && c2 = 'b')) = true ∧ noBrTrigger (c2 :: r2) = true := by
          rw [← Bool.and_eq_true]
          exact h
        have hm : tryBr (c :: c2 :: r2) = none := by
          cases r2 with
          | nil => rfl
          | cons c3 r3 =>
            by_cases hcl : c = '<'
            · have hb : ¬ (c2 = 'b') := by
                have h3 := hsplit.1
                rw [hcl] at h3
                simpa using h3
              simp [tryBr, hb]
            · simp [tryBr, hcl]
        simp [scanBr, hm, ih (c2 :: r2) hsplit.2]

/-- No escaped character list contains a raw `<`. -/
theorem escapeChars_no_lt (l : List Char) : '<' ∉ escapeChars l := by
  induction l with
  | nil => simp [escapeChars]
  | cons x rest ih =>
    intro h
    have hstep : escapeChars (x :: rest) = escChar x ++ escapeChars rest := rfl
    rw [hstep] at h
    rcases List.mem_append.mp h with h2 | h2
    · unfold escChar at h2
      split_ifs at h2 with ha hb hc2 hd
      · rw [show ("&amp;" : String).data = ['&', 'a', 'm', 'p', ';'] from rfl] at h2
        simp at h2
      · rw [show ("&lt;" : String).data = ['&', 'l', 't', ';'] from rfl] at h2
        simp at h2
      · rw [show ("&gt;" : String).data = ['&', 'g', 't', ';'] from rfl] at h2
        simp at h2
      · rw [show ("&quot;" : String).data = ['&', 'q', 'u', 'o', 't', ';'] from rfl] at h2
        simp at h2
      · simp at h2
        exact hb (h2 ▸ rfl)
    · exact ih h2

/-- Characters of an escaped list come from the original list or from the
entity alphabet. -/
theorem escapeChars_mem (l : List Char) (c : Char) (h : c ∈ escapeChars l) :
    c ∈ l ∨ c ∈ ['&', 'a', 'm', 'p', ';', 'l', 't', 'g', 'q', 'u', 'o'] := by
  induction l with
  | nil => simp [escapeChars] at h
  | cons x rest ih =>
    have hstep : escapeChars (x :: rest) = escChar x ++ escapeChars rest := rfl
    rw [hstep] at h
    rcases List.mem_append.mp h with h2 | h2
    · unfold escChar at h2
      split_ifs at h2 with ha hb hc2 hd
      · rw [show ("&amp;" : String).data = ['&', 'a', 'm', 'p', ';'] from rfl] at h2
        right
        simp at h2
        rcases h2 with rfl | rfl | rfl | rfl | rfl <;> simp
      · rw [show ("&lt;" : String).data = ['&', 'l', 't', ';'] from rfl] at h2
        right
        simp at h2
        rcases h2 with rfl | rfl | rfl | rfl <;> simp
      · rw [show ("&gt;" : String).data = ['&', 'g', 't', ';'] from rfl] at h2
        right
        simp at h2
        rcases h2 with rfl | rfl | rfl | rfl <;> simp
      · rw [show ("&quot;" : String).data = ['&', 'q', 'u', 'o', 't', ';'] from rfl] at h2
        right
        simp at h2
        rcases h2 with rfl | rfl | rfl | rfl | rfl | rfl <;> simp
      · simp at h2
        left
        simp [h2]
    · rcases ih h2 with h3 | h3
      · left; simp [h3]
      · right; exact h3

/-- The link pass never consumes fuel on the empty subject. -/
theorem scanLinks_nil (f : Nat) : scanLinks f [] = [] := by
  cases f <;> rfl

/-- The link matcher on a full rendered link. -/
theorem tryLink_shape (t u rest : List Char) (ht : t ≠ []) (ht2 : ∀ c ∈ t, c ≠ ']')
    (hu : u ≠ []) (hu2 : ∀ c ∈ u, c ≠ ')') :
    tryLink ('[' :: (t ++ ']' :: '(' :: (u ++ ')' :: rest))) = some (t, u, rest) := by
  simp only [tryLink]
  rw [if_pos trivial]
  rw [splitUntil_append ']' t _ ht2]
  dsimp only
  rw [if_neg (by simpa [List.isEmpty_iff] using ht)]
  rw [if_pos rfl]
  rw [splitUntil_append ')' u rest hu2]
  dsimp only
  rw [if_neg (by simpa [List.isEmpty_iff] using hu)]

/-- The link pass on a subject that is exactly one rendered link. -/
theorem scanLinks_link (t u : List Char) (n : Nat) (ht : t ≠ [])
    (ht2 : ∀ c ∈ t, c ≠ ']') (hu : u ≠ []) (hu2 : ∀ c ∈ u, c ≠ ')') :
    scanLinks (n + 1) ('[' :: (t ++ ']' :: '(' :: (u ++ [')'])))
      = "<a href=\"".data ++ escapeChars u ++ "\">".data ++ t ++ "</a>".data := by
  have hm := tryLink_shape t u [] ht ht2 hu hu2
  simp only [scanLinks, hm, scanLinks_nil]
  simp

/-- Unpack the safe-character predicate. -/
theorem safeInlineChar_facts (c : Char) (h : safeInlineChar c = true) :
    c ≠ '!' ∧ c ≠ '[' ∧ c ≠ ']' ∧ c ≠ '(' ∧ c ≠ ')' ∧ c ≠ '*' ∧ c ≠ '_'
      ∧ c ≠ '~' ∧ c ≠ '`' ∧ c ≠ '<' ∧ c ≠ '\n' := by
  unfold safeInlineChar at h
  simp at h
  tauto

/-- Unpack the safe-attribute-character predicate. -/
theorem safeAttrChar_facts (c : Char) (h : safeAttrChar c = true) :
    c ≠ '!' ∧ c ≠ '[' ∧ c ≠ ']' ∧ c ≠ '(' ∧ c ≠ ')' ∧ c ≠ '*' ∧ c ≠ '_'
      ∧ c ≠ '~' ∧ c ≠ '`' ∧ c ≠ '\n' := by
  unfold safeAttrChar at h
  simp at h
  tauto

/-- Without a bar character the width-suffix pattern cannot match. -/
theorem widthSplit_none (pre cs : List Char) (h : ∀ c ∈ cs, c ≠ '|') :
    widthSplit pre cs = none := by
  induction cs generalizing pre with
  | nil => rfl
  | cons c rest ih =>
    rw [widthSplit]
    by_cases hn : c = '\n'
    · rw [if_pos hn]
    · rw [if_neg hn]
      rw [if_neg (by simp [h c (by simp)])]
      exact ih (pre ++ [c]) (fun x hx => h x (by simp [hx]))

/-- Characters of the pieces of a split come from the split subject. -/
theorem mem_splitOnCh (sep : Char) (cs : List Char) :
    ∀ g ∈ splitOnCh sep cs, ∀ c ∈ g, c ∈ cs := by
  induction cs with
  | nil =>
    intro g hg c hc
    rw [show splitOnCh sep [] = [[]] from rfl] at hg
    simp at hg
    subst hg
    simp at hc
  | cons x rest ih =>
    intro g hg c hc
    rw [splitOnCh] at hg
    cases hs : splitOnCh sep rest with
    | nil =>
      rw [hs] at hg
      dsimp only at hg
      simp at hg
      subst hg
      simp at hc
    | cons g0 gs =>
      rw [hs] at hg
      dsimp only at hg
      by_cases hx : x = sep
      · rw [if_pos hx] at hg
        rcases List.mem_cons.mp hg with rfl | hg2
        · simp at hc
        · exact List.mem_cons_of_mem x (ih g (by rw [hs]; exact hg2) c hc)
      · rw [if_neg hx] at hg
        rcases List.mem_cons.mp hg with rfl | hg2
        · rcases List.mem_cons.mp hc with rfl | hc2
          · simp
          · exact List.mem_cons_of_mem x (ih g0 (by rw [hs]; simp) c hc2)
        · exact List.mem_cons_of_mem x (ih g (by rw [hs]; simp [hg2]) c hc)

/-- Characters of a basename come from the path. -/
theorem basenameCh_sub (p : List Char) : ∀ c ∈ basenameCh p, c ∈ p := by
  intro c hc
  rw [basenameCh] at hc
  cases hs : splitOnCh '/' p with
  | nil =>
    rw [hs] at hc
    exact hc
  | cons g gs =>
    rw [hs] at hc
    have hlast : (g :: gs).getLastD p ∈ g :: gs := by
      rw [List.getLastD_eq_getLast?]
      rw [List.getLast?_eq_getLast (g :: gs) (by simp)]
      simp [List.getLast_mem]
    exact mem_splitOnCh '/' p _ (hs ▸ hlast) c hc

/-- The image matcher on a full rendered image reference. -/
theorem tryImage_shape (a p rest : List Char) (ha2 : ∀ c ∈ a, c ≠ ']')
    (hp : p ≠ []) (hp2 : ∀ c ∈ p, c ≠ ')') :
    tryImage ('!' :: '[' :: (a ++ ']' :: '(' :: (p ++ ')' :: rest))) = some (a, p, rest) := by
  simp only [tryImage]
  rw [if_pos (by decide)]
  rw [splitUntil_append ']' a _ ha2]
  dsimp only
  rw [if_pos rfl]
  rw [splitUntil_append ')' p rest hp2]
  dsimp only
  rw [if_neg (by simpa [List.isEmpty_iff] using hp)]

/-- The image pass on a subject that is exactly one image reference. -/
theorem scanImages_image (a p : List Char) (n : Nat) (imgs : List String)
    (ha2 : ∀ c ∈ a, c ≠ ']') (hp : p ≠ []) (hp2 : ∀ c ∈ p, c ≠ ')') :
    scanImages (n + 1) ('!' :: '[' :: (a ++ ']' :: '(' :: (p ++ [')']))) imgs
      = (imageRepl a p, imgs ++ [String.mk p]) := by
  have hm := tryImage_shape a p [] ha2 hp hp2
  have hnil : scanImages n [] (imgs ++ [String.mk p]) = ([], imgs ++ [String.mk p]) := by
    cases n <;> rfl
  simp only [scanImages, hm, hnil]
  simp

/-- A pair headed by a character that is not `b` never fires the `<br>`
trigger, whatever precedes it. -/
theorem noBrTrigger_cons_not_b (c d : Char) (rest : List Char) (hd : d ≠ 'b')
    (h : noBrTrigger (d :: rest) = true) : noBrTrigger (c :: d :: rest) = true := by
  show ((!(c = '<' && d = 'b')) && noBrTrigger (d :: rest)) = true
  rw [h]
  simp [hd]

/-- On the single line `"- "` the scan-loop body returns to the same
position with one more accumulated part, so the loop exhausts any amount of
fuel. -/
theorem convertAux_dashLine_none : ∀ (fuel : Nat) (parts imgs : List String),
    convertAux ["- "] fuel 0 parts imgs = none := by
  intro fuel
  induction fuel with
  | zero => intro parts imgs; rfl
  | succ n ih =>
    intro parts imgs
    have step : convertAux ["- "] (n + 1) 0 parts imgs
        = convertAux ["- "] n 0 (parts ++ ["<ul></ul>"]) imgs := rfl
    rw [step]
    exact ih _ _

/-- `convert` on the single line `"- "` reports non-termination. -/
theorem convert_dash_none : convert "- " = none := by
  show (match convertAux (splitLines "- ") ((splitLines "- ").length + 1) 0 [] [] with
    | some (parts, imgs) => some (joinStr "\n" parts, imgs)
    | none => none) = none
  rw [show splitLines "- " = ["- "] from rfl]
  rw [convertAux_dashLine_none _ [] []]

/-! ## Claims -/

/-- Claim C3: in the inline extractor, a text node carrying a link mark
renders exactly as the markdown link wrapping the raw node text, using the
first link mark's href, with no other mark (strong, em, code) additionally
applied; without a link mark the marks wrap the text sequentially in mark
order via `wrapMark`. -/
theorem claim3_link_mark_priority (s : String) (ms : List Mark) :
    (∀ u, firstLinkHref ms = some u →
      extractTextFromNode (.text s ms) = "[" ++ s ++ "](" ++ u ++ ")")
    ∧ (firstLinkHref ms = none →
      extractTextFromNode (.text s ms) = ms.foldl wrapMark s) := by
  constructor
  · intro u hu
    simp [extractTextFromNode, hu]
  · intro hn
    simp [extractTextFromNode, hn]

/-- Witness for C3: the spec's scenario, a text node with both a link and a
strong mark renders as the plain link, not bold-wrapped. -/
theorem claim3_witness :
    extractTextFromNode (.text "text" [.link "url", .strong]) = "[text](url)" :=
  (claim3_link_mark_priority "text" [.link "url", .strong]).1 "url" rfl

/-- Claim C8: a heading node of level `L` whose extracted text is nonempty
after strip contributes exactly the block of `L` hash characters, one
space, and the inline text; a heading whose text strips to empty
contributes no block. -/
theorem claim8_heading_shape (L : Nat) (c : NodeList) (hs : List (Nat × String))
    (_h1 : 1 ≤ L) (_h2 : L ≤ 6) :
    (pyStrip (extractTextFromNode (.heading L c)) ≠ "" →
      nodeBlocks hs (.heading L c)
        = [String.mk (List.replicate L '#') ++ " " ++ extractTextFromNode (.heading L c)])
    ∧ (pyStrip (extractTextFromNode (.heading L c)) = "" →
      nodeBlocks hs (.heading L c) = []) := by
  constructor
  · intro h
    simp [nodeBlocks, strTruthy, h]
  · intro h
    simp [nodeBlocks, strTruthy, h]

/-- Witness for C8: the spec's scenario heading of level 2 with text
`Scope` renders as `## Scope`. -/
theorem claim8_witness :
    nodeBlocks [] (.heading 2 (nl [.text "Scope" []])) = ["## Scope"] ∧ 1 ≤ 2 ∧ 2 ≤ 6 :=
  ⟨((claim8_heading_shape 2 (nl [.text "Scope" []]) [] (by decide) (by decide)).1
      (by decide)).trans (by decide),
   by decide, by decide⟩

/-- Claim C4: the TOC emitted for a `toc` extension lists exactly the
pre-scanned headings of level at most 3, in document order; in particular
the scenario document with headings of level 1, 2 and 4 followed by a toc
extension lists only the level-1 and level-2 headings. -/
theorem claim4_toc_levels (hs : List (Nat × String)) :
    tocEntries hs = (hs.filter (fun h => h.1 ≤ 3)).map (fun h => tocEntry h.1 h.2)
    ∧ atlasDocToMarkdown (nl [.heading 1 (nl [.text "Alpha" []]),
        .heading 2 (nl [.text "Beta One" []]),
        .heading 4 (nl [.text "Deep" []]),
        .extension "toc"])
      = "# Alpha\n\n## Beta One\n\n#### Deep\n\n## 목차\n\n- [Alpha](#alpha)\n- [Beta One](#beta-one)" := by
  constructor
  · induction hs with
    | nil => rfl
    | cons hd tl ih =>
      obtain ⟨l, s⟩ := hd
      by_cases hl : l > 3
      · have hl2 : ¬ (l ≤ 3) := by omega
        simp [tocEntries, hl, List.filter_cons, hl2, ih]
      · have hl2 : l ≤ 3 := by omega
        simp [tocEntries, hl, List.filter_cons, hl2, ih]
  · decide

/-- Claim C6 counterexample: for the table whose first row has a cell with
rowspan 2 at column 0, the column-0 cell of the following rendered row is
the empty string, not the single space the claim states. -/
theorem claim6_counterexample :
    (gridRows (.table (nl [
      .tableRow (nl [.tableCell 2 1 (nl [.paragraph (nl [.text "A" []])]),
                     .tableCell 1 1 (nl [.paragraph (nl [.text "B" []])])]),
      .tableRow (nl [.tableCell 1 1 (nl [.paragraph (nl [.text "C" []])])])]))).getD 1 []
      = ["", "C"]
    ∧ ("" : String) ≠ " " := by
  decide

/-- Claim C6 amended: the rowspan continuation placeholder is the empty
string, so the rendered markdown row is `|  | C |` (two spaces between the
first bars coming from the cell separators, no placeholder space). -/
theorem claim6_amended_empty_placeholder :
    tableRows (.table (nl [
      .tableRow (nl [.tableCell 2 1 (nl [.paragraph (nl [.text "A" []])]),
                     .tableCell 1 1 (nl [.paragraph (nl [.text "B" []])])]),
      .tableRow (nl [.tableCell 1 1 (nl [.paragraph (nl [.text "C" []])])])]))
      = ["| A | B |", "| --- | --- |", "|  | C |"] := by
  decide

/-- Claim C2 counterexample: a rectangular input grid (width 3: a merged
cell spanning 2 rows and 2 columns, plus one single cell per row) renders
with a 3-cell header row and a 2-cell body row, because the rowspan tracker
registers only the first column of a rowspan+colspan cell. -/
theorem claim2_counterexample :
    ((gridRows (.table (nl [
      .tableRow (nl [.tableHeader 2 2 (nl [.paragraph (nl [.text "A" []])]),
                     .tableHeader 1 1 (nl [.paragraph (nl [.text "B" []])])]),
      .tableRow (nl [.tableCell 1 1 (nl [.paragraph (nl [.text "C" []])])])]))).map
        List.length) = [3, 2]
    ∧ (3 : Nat) ≠ 2 := by
  decide

/-- Claim C5 counterexample: a table whose first row node is empty places
one row (from its second row node) yet renders with no separator row at
all: the separator condition requires the first placed row to carry a
header cell or sit at row index 0. -/
theorem claim5_counterexample :
    tableRows (.table (nl [.tableRow (nl []),
      .tableRow (nl [.tableCell 1 1 (nl [.paragraph (nl [.text "X" []])])])]))
      = ["| X |"]
    ∧ ¬ 2 ≤ (tableRows (.table (nl [.tableRow (nl []),
      .tableRow (nl [.tableCell 1 1 (nl [.paragraph (nl [.text "X" []])])])]))).length := by
  decide

/-- Claim C1 amended: the renderer's Markdown is not always consumable by
the parser — a paragraph whose text is `- ` renders to the line `- `, on
which `convert` never terminates — and block-kind recognition holds only
line by line under provisos.  A heading line of level 1..6 with nonempty
bar-free text, an ordered-item line (digits, dot, space, bar-free text), a
code-fence opening line, a rule line, and a table row followed by its
separator row are each classified by the parser's rule for their own kind;
a line containing a bar whose successor is separator-shaped is preempted by
the table rule (`1. a | b` before `:-` classifies as a table, not an
ordered item); renderer bullet lines (`• ...`) and plain text lines opening
with a non-marker character fall through to the paragraph rule. -/
theorem claim1_amended (L : Nat) (t lang t2 : String) (ds : List Char) (cells : List String)
    (m : Nat) (nxt : Option String) (c : Char) (r : List Char)
    (h1 : 1 ≤ L) (h2 : L ≤ 6) (h3 : pyStrip t ≠ "")
    (h4 : ∀ x ∈ t.data, x ≠ '|')
    (h5 : ds ≠ []) (h6 : ∀ d ∈ ds, d.isDigit = true)
    (h7 : t2.data = c :: r)
    (h8 : isSpaceChar c = false) (h9 : c ≠ '`') (h10 : c ≠ '-') (h11 : c ≠ '#')
    (h12 : c ≠ '*') (h13 : c ≠ '+') (h14 : c ≠ '>') (h15 : c.isDigit = false)
    (h16 : ∀ x ∈ t2.data, x ≠ '|') :
    classify (String.mk (List.replicate L '#') ++ " " ++ t) nxt = .heading
    ∧ classify (String.mk ds ++ ". " ++ t) nxt = .olist
    ∧ classify ("```" ++ lang) nxt = .codeFence
    ∧ classify "---" nxt = .hrule
    ∧ classify (renderRow cells) (some (renderRow (List.replicate m "---"))) = .table
    ∧ classify ("• " ++ t) nxt = .para
    ∧ classify t2 nxt = .para
    ∧ atlasDocToMarkdown (nl [.paragraph (nl [.text "- " []])]) = "- "
    ∧ convert "- " = none
    ∧ classify "1. a | b" (some ":-") = .table :=
  ⟨classify_heading_line L t nxt h1 h2 h3,
   classify_olist_line ds t nxt h5 h6 h4,
   classify_fence_line lang nxt,
   rfl,
   classify_table_line cells m,
   classify_bullet_line t nxt h4,
   classify_para_of_head t2 nxt c r h7 h8 h9 h10 h11 h12 h13 h14 h15 h16,
   by decide,
   convert_dash_none,
   by decide⟩

/-- Witness for the amended C1 at concrete renderer outputs. -/
theorem claim1_amended_witness :
    classify (String.mk (List.replicate 2 '#') ++ " " ++ "Scope") none = .heading
    ∧ classify (String.mk ['1'] ++ ". " ++ "Scope") none = .olist
    ∧ classify ("```" ++ "py") none = .codeFence
    ∧ classify "---" none = .hrule
    ∧ classify (renderRow ["a"]) (some (renderRow (List.replicate 1 "---"))) = .table
    ∧ classify ("• " ++ "Scope") none = .para
    ∧ classify "x1" none = .para
    ∧ atlasDocToMarkdown (nl [.paragraph (nl [.text "- " []])]) = "- "
    ∧ convert "- " = none
    ∧ classify "1. a | b" (some ":-") = .table :=
  claim1_amended 2 "Scope" "py" "x1" ['1'] ["a"] 1 none 'x' ['1']
    (by decide) (by decide) (by decide) (by decide) (by decide) (by decide)
    rfl (by decide) (by decide) (by decide) (by decide) (by decide) (by decide)
    (by decide) (by decide) (by decide)

/-- Claim C2 amended: grid rectangularity holds for tables without
row-spanning cells: if every cell has rowspan 1 and colspan at least 1, and
every row holding a cell has the same total colspan `W`, then every
rendered grid row has exactly `W` cells.  (A cell with both rowspan and
colspan above 1 breaks the property, as the counterexample shows, because
the tracker registers only its first column for the following rows.) -/
theorem claim2_amended (children : NodeList) (W : Nat)
    (h1 : simpleTable children = true) (h2 : uniformWidth W children = true) :
    ∀ g ∈ gridRows (.table children), g.length = W :=
  gridFold_simple children W h1 h2

/-- Witness for the amended C2 on a 2x2 table of plain cells. -/
theorem claim2_amended_witness :
    List.Forall (fun g => g.length = 2) (gridRows (.table (nl [
      .tableRow (nl [Node.tableHeader 1 1 (nl [.paragraph (nl [.text "A" []])]),
                     Node.tableHeader 1 1 (nl [.paragraph (nl [.text "B" []])])]),
      .tableRow (nl [Node.tableCell 1 1 (nl [.paragraph (nl [.text "C" []])]),
                     Node.tableCell 1 1 (nl [.paragraph (nl [.text "D" []])])])]))) :=
  List.forall_iff_forall_mem.mpr (claim2_amended _ 2 (by decide) (by decide))

/-- Claim C5 amended: consider a table whose first cell-placing row node is
the `tableRow ch`, every earlier child being inert (not a row, or a row
without physical cells).  If that first placed row carries a header cell or
is the table's first child, the separator row is inserted exactly once,
immediately after it, built as one `---` cell per cell of that row, and the
row count is the placed-row count plus one.  If instead it carries no
header cell and sits at a child index of at least one, no separator row is
inserted at all: the output rows are exactly the rendered placed rows. -/
theorem claim5_amended (pre : List Node) (ch rest : NodeList)
    (hpre : ∀ n ∈ pre, inertNode n = true)
    (h : (processRow [] ch).2.1 ≠ []) :
    (((processRow [] ch).2.2 = true ∨ pre = []) →
      tableRows (.table (nlApp pre (.cons (.tableRow ch) rest)))
        = renderRow (processRow [] ch).2.1
          :: renderRow (List.replicate (processRow [] ch).2.1.length "---")
          :: (gridFold rest (processRow [] ch).1).map renderRow
      ∧ (tableRows (.table (nlApp pre (.cons (.tableRow ch) rest)))).length
        = (gridRows (.table (nlApp pre (.cons (.tableRow ch) rest)))).length + 1)
    ∧ (((processRow [] ch).2.2 = false ∧ pre ≠ []) →
      tableRows (.table (nlApp pre (.cons (.tableRow ch) rest)))
        = (gridRows (.table (nlApp pre (.cons (.tableRow ch) rest)))).map renderRow) := by
  have hc : ¬ (processRow [] ch).2.1.isEmpty = true := by
    simpa [List.isEmpty_iff] using h
  have hfold : tableRows (.table (nlApp pre (.cons (.tableRow ch) rest)))
      = tableFold (.cons (.tableRow ch) rest) pre.length [] true [] := by
    rw [tableRows]
    show tableFold (nlApp pre (.cons (.tableRow ch) rest)) 0 [] true [] = _
    rw [tableFold_inert pre hpre 0 _]
    simp
  have hgrid : gridRows (.table (nlApp pre (.cons (.tableRow ch) rest)))
      = (processRow [] ch).2.1 :: gridFold rest (processRow [] ch).1 := by
    rw [gridRows]
    show gridFold (nlApp pre (.cons (.tableRow ch) rest)) [] = _
    rw [gridFold_inert pre hpre _]
    rw [gridFold]
    dsimp only [Node.asTableRow]
    rw [if_neg hc]
  constructor
  · intro hA
    have hcond : (((processRow [] ch).2.2 || true && decide (pre.length = 0)) &&
        decide (([] ++ [renderRow (processRow [] ch).2.1]).length = 1)) = true := by
      rcases hA with hh | hp0
      · simp [hh]
      · simp [hp0]
    have hstep : tableRows (.table (nlApp pre (.cons (.tableRow ch) rest)))
        = tableFold rest (pre.length + 1) (processRow [] ch).1 false
            [renderRow (processRow [] ch).2.1,
             renderRow (List.replicate (processRow [] ch).2.1.length "---")] := by
      rw [hfold, tableFold]
      dsimp only [Node.asTableRow]
      rw [if_neg hc]
      rw [if_pos hcond]
      simp
    constructor
    · rw [hstep, tableFold_noSep rest (pre.length + 1) _ false _ (by simp)]
      simp
    · rw [hstep, tableFold_noSep rest (pre.length + 1) _ false _ (by simp), hgrid]
      simp
  · intro hB
    have hlen0 : ¬ (pre.length = 0) := by
      simpa [List.length_eq_zero] using hB.2
    have hcond : (((processRow [] ch).2.2 || true && decide (pre.length = 0)) &&
        decide (([] ++ [renderRow (processRow [] ch).2.1]).length = 1)) = false := by
      simp [hB.1, hlen0]
    rw [hfold, tableFold]
    dsimp only [Node.asTableRow]
    rw [if_neg hc]
    rw [if_neg (fun hx => Bool.false_ne_true (hcond ▸ hx))]
    rw [tableFold_noSep rest (pre.length + 1) _ true _ (by simp), hgrid]
    simp

/-- Witness for the amended C5: a cell-less first row, then a header row at
child index one; the output is the header row followed by the separator of
the same width. -/
theorem claim5_amended_witness :
    tableRows (.table (nlApp [Node.tableRow .nil]
        (.cons (.tableRow (nl [Node.tableHeader 1 1 (nl [.paragraph (nl [.text "H" []])])])) .nil)))
      = renderRow (processRow [] (nl [Node.tableHeader 1 1 (nl [.paragraph (nl [.text "H" []])])])).2.1
        :: renderRow (List.replicate
            (processRow [] (nl [Node.tableHeader 1 1 (nl [.paragraph (nl [.text "H" []])])])).2.1.length "---")
        :: (gridFold .nil
            (processRow [] (nl [Node.tableHeader 1 1 (nl [.paragraph (nl [.text "H" []])])])).1).map renderRow :=
  ((claim5_amended [Node.tableRow .nil]
      (nl [Node.tableHeader 1 1 (nl [.paragraph (nl [.text "H" []])])]) .nil
      (by decide) (by decide)).1 (Or.inl (by decide))).1

/-- Claim C1 counterexample: the renderer emits an unordered list item as a
bullet line `• hi`, which the parser's unordered-list rule `[-*+]\s` does
not match; the line falls through to the paragraph rule and is emitted as a
paragraph element. -/
theorem claim1_counterexample :
    atlasDocToMarkdown (nl [.bulletList (nl [.listItem (nl [.paragraph (nl [.text "hi" []])])])])
      = "• hi"
    ∧ classify "• hi" none = .para
    ∧ convert "• hi" = some ("<p>• hi</p>", [])
    ∧ BlockKind.para ≠ BlockKind.ulist := by
  decide

/-- Claim C7 counterexample: special characters in emitted element text are
not escaped at all: the paragraph `a & b` reaches the output with a raw
ampersand, not the escaped form the claim requires. -/
theorem claim7_counterexample :
    convert "a & b" = some ("<p>a & b</p>", [])
    ∧ "<p>a & b</p>" ≠ "<p>" ++ escapeXml "a & b" ++ "</p>" := by
  decide

/-- Claim C7 amended: XML escaping is applied exactly once, at final
attribute-value emission, and never mid-pipeline.  For a link the href is
emitted as `escapeXml u` while the link text passes through every pass
verbatim; for an image the alt text and the attachment basename are each
emitted escaped exactly once and the recorded path is the raw one; element
text is never escaped, so a raw `<` in a paragraph reaches the storage
markup unescaped.  The attribute subjects may contain all four characters
`&`, `<`, `>`, `"`. -/
theorem claim7_amended (t u a p : String) (imgs imgs2 : List String)
    (ht : t.data ≠ []) (hu : u.data ≠ []) (hp : p.data ≠ [])
    (ht2 : ∀ c ∈ t.data, safeInlineChar c = true)
    (hu2 : ∀ c ∈ u.data, safeAttrChar c = true)
    (ha2 : ∀ c ∈ a.data, safeAttrChar c = true ∧ c ≠ '|')
    (hp2 : ∀ c ∈ p.data, safeAttrChar c = true) :
    convertInline ("[" ++ t ++ "](" ++ u ++ ")") imgs
      = ("<a href=\"" ++ escapeXml u ++ "\">" ++ t ++ "</a>", imgs)
    ∧ convertInline ("![" ++ a ++ "](" ++ p ++ ")") imgs2
      = ("<ac:image ac:alt=\"" ++ escapeXml a ++ "\"><ri:attachment ri:filename=\""
          ++ escapeXml (String.mk (basenameCh p.data)) ++ "\"/></ac:image>", imgs2 ++ [p])
    ∧ convert "a < b" = some ("<p>a < b</p>", []) := by
  refine ⟨?_, ?_, by decide⟩
  · have hdata : ("[" ++ t ++ "](" ++ u ++ ")").data
        = '[' :: (t.data ++ ']' :: '(' :: (u.data ++ [')'])) := by
      rw [String.data_append, String.data_append, String.data_append, String.data_append]
      show ['['] ++ t.data ++ [']', '('] ++ u.data ++ [')'] = _
      simp
    have hne : ∀ c ∈ ("[" ++ t ++ "](" ++ u ++ ")").data, c ≠ '!' := by
      rw [hdata]
      intro c hc
      rcases List.mem_cons.mp hc with rfl | hc
      · decide
      rcases List.mem_append.mp hc with hc | hc
      · exact (safeInlineChar_facts c (ht2 c hc)).1
      rcases List.mem_cons.mp hc with rfl | hc
      · decide
      rcases List.mem_cons.mp hc with rfl | hc
      · decide
      rcases List.mem_append.mp hc with hc | hc
      · exact (safeAttrChar_facts c (hu2 c hc)).1
      · rcases List.mem_cons.mp hc with rfl | hc
        · decide
        · simp at hc
    have hS : ∀ c ∈ ("<a href=\"".data ++ escapeChars u.data ++ "\">".data
        ++ t.data ++ "</a>".data),
        c ≠ '*' ∧ c ≠ '_' ∧ c ≠ '~' ∧ c ≠ '`' := by
      intro c hc
      rcases List.mem_append.mp hc with hc1 | hc1
      · rcases List.mem_append.mp hc1 with hc2 | hc2
        · rcases List.mem_append.mp hc2 with hc3 | hc3
          · rcases List.mem_append.mp hc3 with hc4 | hc4
            · have h9 : c = '<' ∨ c = 'a' ∨ c = ' ' ∨ c = 'h' ∨ c = 'r' ∨ c = 'e'
                  ∨ c = 'f' ∨ c = '=' ∨ c = '"' := by
                rw [show ("<a href=\"" : String).data
                    = ['<', 'a', ' ', 'h', 'r', 'e', 'f', '=', '"'] from rfl] at hc4
                simpa using hc4
              rcases h9 with rfl | rfl | rfl | rfl | rfl | rfl | rfl | rfl | rfl <;> decide
            · rcases escapeChars_mem u.data c hc4 with h5 | h5
              · have hf := safeAttrChar_facts c (hu2 c h5)
                exact ⟨hf.2.2.2.2.2.1, hf.2.2.2.2.2.2.1, hf.2.2.2.2.2.2.2.1,
                  hf.2.2.2.2.2.2.2.2.1⟩
              · have h11 : c = '&' ∨ c = 'a' ∨ c = 'm' ∨ c = 'p' ∨ c = ';' ∨ c = 'l'
                    ∨ c = 't' ∨ c = 'g' ∨ c = 'q' ∨ c = 'u' ∨ c = 'o' := by
                  simpa using h5
                rcases h11 with rfl | rfl | rfl | rfl | rfl | rfl | rfl | rfl | rfl | rfl | rfl
                  <;> decide
          · have h2 : c = '"' ∨ c = '>' := by
              rw [show ("\">" : String).data = ['"', '>'] from rfl] at hc3
              simpa using hc3
            rcases h2 with rfl | rfl <;> decide
        · have hf := safeInlineChar_facts c (ht2 c hc2)
          exact ⟨hf.2.2.2.2.2.1, hf.2.2.2.2.2.2.1, hf.2.2.2.2.2.2.2.1,
            hf.2.2.2.2.2.2.2.2.1⟩
      · have h4 : c = '<' ∨ c = '/' ∨ c = 'a' ∨ c = '>' := by
          rw [show ("</a>" : String).data = ['<', '/', 'a', '>'] from rfl] at hc1
          simpa using hc1
        rcases h4 with rfl | rfl | rfl | rfl <;> decide
    have hBr : noBrTrigger ("<a href=\"".data ++ escapeChars u.data ++ "\">".data
        ++ t.data ++ "</a>".data) = true := by
      rw [show ("<a href=\"" : String).data
          = '<' :: 'a' :: [' ', 'h', 'r', 'e', 'f', '=', '"'] from rfl]
      rw [show ('<' :: 'a' :: [' ', 'h', 'r', 'e', 'f', '=', '"']) ++ escapeChars u.data
          = '<' :: 'a' :: ([' ', 'h', 'r', 'e', 'f', '=', '"'] ++ escapeChars u.data) from by simp]
      rw [show (('<' :: 'a' :: ([' ', 'h', 'r', 'e', 'f', '=', '"'] ++ escapeChars u.data))
            ++ ("\">" : String).data ++ t.data ++ ("</a>" : String).data)
          = '<' :: 'a' :: (([' ', 'h', 'r', 'e', 'f', '=', '"'] ++ escapeChars u.data)
            ++ ("\">" : String).data ++ t.data ++ ("</a>" : String).data) from by simp]
      apply noBrTrigger_cons_not_b _ _ _ (by decide)
      rw [noBrTrigger_cons_ne 'a' _ (by decide)]
      have happ : noBrTrigger ((([' ', 'h', 'r', 'e', 'f', '=', '"'] ++ escapeChars u.data)
          ++ ("\">" : String).data ++ t.data) ++ ("</a>" : String).data) = true := by
        apply noBrTrigger_append
        · intro c hc
          rcases List.mem_append.mp hc with hc1 | hc1
          · rcases List.mem_append.mp hc1 with hc2 | hc2
            · rcases List.mem_append.mp hc2 with hc3 | hc3
              · have h7 : c = ' ' ∨ c = 'h' ∨ c = 'r' ∨ c = 'e' ∨ c = 'f' ∨ c = '='
                    ∨ c = '"' := by simpa using hc3
                rcases h7 with rfl | rfl | rfl | rfl | rfl | rfl | rfl <;> decide
              · intro he
                exact escapeChars_no_lt u.data (he ▸ hc3)
            · have h2 : c = '"' ∨ c = '>' := by
                rw [show ("\">" : String).data = ['"', '>'] from rfl] at hc2
                simpa using hc2
              rcases h2 with rfl | rfl <;> decide
          · exact (safeInlineChar_facts c (ht2 c hc1)).2.2.2.2.2.2.2.2.2.1
        · decide
      rw [show (([' ', 'h', 'r', 'e', 'f', '=', '"'] ++ escapeChars u.data)
            ++ ("\">" : String).data ++ t.data ++ ("</a>" : String).data)
          = ((([' ', 'h', 'r', 'e', 'f', '=', '"'] ++ escapeChars u.data)
            ++ ("\">" : String).data ++ t.data) ++ ("</a>" : String).data) from by simp]
      exact happ
    simp only [convertInline]
    rw [scanImages_id _ _ _ hne]
    dsimp only
    rw [hdata]
    rw [show ('[' :: (t.data ++ ']' :: '(' :: (u.data ++ [')']))).length
        = (t.data ++ ']' :: '(' :: (u.data ++ [')'])).length + 1 from rfl]
    rw [scanLinks_link t.data u.data _ ht
      (fun c hc => (safeInlineChar_facts c (ht2 c hc)).2.2.1) hu
      (fun c hc => (safeAttrChar_facts c (hu2 c hc)).2.2.2.2.1)]
    rw [scanDelim_id '*' ['*'] _ _ _ _ _ (fun c hc => (hS c hc).1)]
    rw [scanDelim_id '_' ['_'] _ _ _ _ _ (fun c hc => (hS c hc).2.1)]
    rw [scanDelim_id '*' [] _ _ _ _ _ (fun c hc => (hS c hc).1)]
    rw [scanUI_id _ _ _ (fun c hc => (hS c hc).2.1)]
    rw [scanDelim_id '~' ['~'] _ _ _ _ _ (fun c hc => (hS c hc).2.2.1)]
    rw [scanCode_id _ _ (fun c hc => (hS c hc).2.2.2)]
    rw [scanBr_id _ _ hBr]
    have hout : ("<a href=\"" ++ escapeXml u ++ "\">" ++ t ++ "</a>").data
        = "<a href=\"".data ++ escapeChars u.data ++ "\">".data ++ t.data ++ "</a>".data := by
      rw [String.data_append, String.data_append, String.data_append, String.data_append]
      rfl
    rw [← hout]
  · have hdataI : ("![" ++ a ++ "](" ++ p ++ ")").data
        = '!' :: '[' :: (a.data ++ ']' :: '(' :: (p.data ++ [')'])) := by
      rw [String.data_append, String.data_append, String.data_append, String.data_append]
      show ['!', '['] ++ a.data ++ [']', '('] ++ p.data ++ [')'] = _
      simp
    have hwidth : widthSplit [] a.data = none :=
      widthSplit_none [] a.data (fun c hc => (ha2 c hc).2)
    have hrepl : imageRepl a.data p.data
        = "<ac:image ac:alt=\"".data ++ escapeChars a.data ++ "\"".data
          ++ "><ri:attachment ri:filename=\"".data
          ++ escapeChars (basenameCh p.data) ++ "\"/></ac:image>".data := by
      simp only [imageRepl, hwidth]
      simp
    have hSI : ∀ c ∈ ("<ac:image ac:alt=\"".data ++ escapeChars a.data ++ "\"".data
        ++ "><ri:attachment ri:filename=\"".data ++ escapeChars (basenameCh p.data)
        ++ "\"/></ac:image>".data),
        c ≠ '[' ∧ c ≠ '*' ∧ c ≠ '_' ∧ c ≠ '~' ∧ c ≠ '`' := by
      intro c hc
      rcases List.mem_append.mp hc with hc1 | hc1
      · rcases List.mem_append.mp hc1 with hc2 | hc2
        · rcases List.mem_append.mp hc2 with hc3 | hc3
          · rcases List.mem_append.mp hc3 with hc4 | hc4
            · rcases List.mem_append.mp hc4 with hc5 | hc5
              · exact (by decide : ∀ x ∈ ("<ac:image ac:alt=\"" : String).data,
                  x ≠ '[' ∧ x ≠ '*' ∧ x ≠ '_' ∧ x ≠ '~' ∧ x ≠ '`') c hc5
              · rcases escapeChars_mem a.data c hc5 with h5 | h5
                · have hf := safeAttrChar_facts c (ha2 c h5).1
                  exact ⟨hf.2.1, hf.2.2.2.2.2.1, hf.2.2.2.2.2.2.1,
                    hf.2.2.2.2.2.2.2.1, hf.2.2.2.2.2.2.2.2.1⟩
                · exact (by decide : ∀ x ∈ ['&', 'a', 'm', 'p', ';', 'l', 't', 'g', 'q', 'u', 'o'],
                    x ≠ '[' ∧ x ≠ '*' ∧ x ≠ '_' ∧ x ≠ '~' ∧ x ≠ '`') c h5
            · exact (by decide : ∀ x ∈ ("\"" : String).data,
                x ≠ '[' ∧ x ≠ '*' ∧ x ≠ '_' ∧ x ≠ '~' ∧ x ≠ '`') c hc4
          · exact (by decide : ∀ x ∈ ("><ri:attachment ri:filename=\"" : String).data,
              x ≠ '[' ∧ x ≠ '*' ∧ x ≠ '_' ∧ x ≠ '~' ∧ x ≠ '`') c hc3
        · rcases escapeChars_mem (basenameCh p.data) c hc2 with h5 | h5
          · have hf := safeAttrChar_facts c (hp2 c (basenameCh_sub p.data c h5))
            exact ⟨hf.2.1, hf.2.2.2.2.2.1, hf.2.2.2.2.2.2.1,
              hf.2.2.2.2.2.2.2.1, hf.2.2.2.2.2.2.2.2.1⟩
          · exact (by decide : ∀ x ∈ ['&', 'a', 'm', 'p', ';', 'l', 't', 'g', 'q', 'u', 'o'],
              x ≠ '[' ∧ x ≠ '*' ∧ x ≠ '_' ∧ x ≠ '~' ∧ x ≠ '`') c h5
      · exact (by decide : ∀ x ∈ ("\"/></ac:image>" : String).data,
          x ≠ '[' ∧ x ≠ '*' ∧ x ≠ '_' ∧ x ≠ '~' ∧ x ≠ '`') c hc1
    have hBrI : noBrTrigger ("<ac:image ac:alt=\"".data ++ escapeChars a.data ++ "\"".data
        ++ "><ri:attachment ri:filename=\"".data ++ escapeChars (basenameCh p.data)
        ++ "\"/></ac:image>".data) = true := by
      have hY : noBrTrigger ('<' :: 'r' :: (("i:attachment ri:filename=\"" : String).data
          ++ (escapeChars (basenameCh p.data) ++ ("\"/></ac:image>" : String).data))) = true := by
        apply noBrTrigger_cons_not_b _ _ _ (by decide)
        rw [noBrTrigger_cons_ne 'r' _ (by decide)]
        apply noBrTrigger_append
        · exact (by decide : ∀ x ∈ ("i:attachment ri:filename=\"" : String).data, x ≠ '<')
        · apply noBrTrigger_append
          · intro c hc he
            exact escapeChars_no_lt (basenameCh p.data) (he ▸ hc)
          · decide
      have hshape : ("<ac:image ac:alt=\"".data ++ escapeChars a.data ++ "\"".data
          ++ "><ri:attachment ri:filename=\"".data ++ escapeChars (basenameCh p.data)
          ++ "\"/></ac:image>".data)
          = '<' :: 'a' :: (("c:image ac:alt=\"" : String).data ++ (escapeChars a.data
            ++ ('"' :: '>' :: ('<' :: 'r' :: (("i:attachment ri:filename=\"" : String).data
              ++ (escapeChars (basenameCh p.data) ++ ("\"/></ac:image>" : String).data)))))) := by
        rw [show ("<ac:image ac:alt=\"" : String).data
            = '<' :: 'a' :: ("c:image ac:alt=\"" : String).data from rfl]
        rw [show ("\"" : String).data = ['"'] from rfl]
        rw [show ("><ri:attachment ri:filename=\"" : String).data
            = '>' :: '<' :: 'r' :: ("i:attachment ri:filename=\"" : String).data from rfl]
        simp
      rw [hshape]
      apply noBrTrigger_cons_not_b _ _ _ (by decide)
      rw [noBrTrigger_cons_ne 'a' _ (by decide)]
      apply noBrTrigger_append
      · exact (by decide : ∀ x ∈ ("c:image ac:alt=\"" : String).data, x ≠ '<')
      · apply noBrTrigger_append
        · intro c hc he
          exact escapeChars_no_lt a.data (he ▸ hc)
        · rw [noBrTrigger_cons_ne '"' _ (by decide), noBrTrigger_cons_ne '>' _ (by decide)]
          exact hY
    simp only [convertInline]
    rw [hdataI]
    rw [show ('!' :: '[' :: (a.data ++ ']' :: '(' :: (p.data ++ [')']))).length
        = ('[' :: (a.data ++ ']' :: '(' :: (p.data ++ [')']))).length + 1 from rfl]
    rw [scanImages_image a.data p.data _ imgs2
      (fun c hc => (safeAttrChar_facts c (ha2 c hc).1).2.2.1) hp
      (fun c hc => (safeAttrChar_facts c (hp2 c hc)).2.2.2.2.1)]
    dsimp only
    rw [hrepl]
    rw [scanLinks_id _ _ (fun c hc => (hSI c hc).1)]
    rw [scanDelim_id '*' ['*'] _ _ _ _ _ (fun c hc => (hSI c hc).2.1)]
    rw [scanDelim_id '_' ['_'] _ _ _ _ _ (fun c hc => (hSI c hc).2.2.1)]
    rw [scanDelim_id '*' [] _ _ _ _ _ (fun c hc => (hSI c hc).2.1)]
    rw [scanUI_id _ _ _ (fun c hc => (hSI c hc).2.2.1)]
    rw [scanDelim_id '~' ['~'] _ _ _ _ _ (fun c hc => (hSI c hc).2.2.2.1)]
    rw [scanCode_id _ _ (fun c hc => (hSI c hc).2.2.2.2)]
    rw [scanBr_id _ _ hBrI]
    have houtI : ("<ac:image ac:alt=\"" ++ escapeXml a ++ "\"><ri:attachment ri:filename=\""
        ++ escapeXml (String.mk (basenameCh p.data)) ++ "\"/></ac:image>").data
        = "<ac:image ac:alt=\"".data ++ escapeChars a.data ++ "\"".data
          ++ "><ri:attachment ri:filename=\"".data
          ++ escapeChars (basenameCh p.data) ++ "\"/></ac:image>".data := by
      rw [String.data_append, String.data_append, String.data_append, String.data_append]
      rw [show ("\"><ri:attachment ri:filename=\"" : String).data
          = ("\"" : String).data ++ ("><ri:attachment ri:filename=\"" : String).data from rfl]
      simp [escapeXml]
    rw [← houtI]

/-- Witness for the amended C7: the href `<` and `&` are escaped once at
emission, the image alt `<` and the attachment-basename `&` likewise, while
the link text ampersand and a paragraph `<` are emitted raw. -/
theorem claim7_amended_witness :
    (convertInline ("[" ++ "a&b" ++ "](" ++ "x<&y" ++ ")") []
      = ("<a href=\"" ++ escapeXml "x<&y" ++ "\">" ++ "a&b" ++ "</a>", []))
    ∧ (convertInline ("![" ++ "x<y" ++ "](" ++ "d/a&b.png" ++ ")") []
      = ("<ac:image ac:alt=\"" ++ escapeXml "x<y" ++ "\"><ri:attachment ri:filename=\""
          ++ escapeXml (String.mk (basenameCh ("d/a&b.png" : String).data))
          ++ "\"/></ac:image>", [] ++ ["d/a&b.png"]))
    ∧ convert "a < b" = some ("<p>a < b</p>", []) :=
  claim7_amended "a&b" "x<&y" "x<y" "d/a&b.png" [] [] (by decide) (by decide)
    (by decide) (by decide) (by decide) (by decide) (by decide)

/-- Claim C10 counterexample: an image reference inside a fenced code block
occurs in the markdown text (the parser's own image matcher finds it) but
is never recorded in the images list, because code-block lines bypass the
inline pipeline. -/
theorem claim10_counterexample :
    (convert "```\n![c](p3)\n```").map Prod.snd = some []
    ∧ imagePathsIn "```\n![c](p3)\n```" = ["p3"]
    ∧ ([] : List String) ≠ ["p3"] := by
  decide

/-- Claim C10 amended: each `convert` call resets the instance image list,
so its result is independent of any previous call; after the call the list
holds exactly the image paths of the portions fed through the inline
pipeline, in order of occurrence (code-fence bodies excluded). -/
theorem claim10_amended_reset :
    (∀ (prev : List String) (m : String), convertMethod prev m = convertMethod [] m)
    ∧ (convert "![a](p1) x\n# h ![b](p2)\n```\n![c](p3)\n```").map Prod.snd
        = some ["p1", "p2"] :=
  ⟨fun _ _ => rfl, by decide⟩

/-- Claim C9: `_parse_list` violates the strict-progress property: on the
line `"- "` (which matches the dispatch pattern `[-*+]\s` but not the item
pattern `[-*+]\s+(.+)$`) it returns the index it received, and the scan
loop of `convert` never reaches the end of the line list: the loop body is
the identity on the scan position for every amount of fuel. -/
theorem claim9_parse_list_no_progress :
    (∀ (fuel : Nat) (parts imgs : List String),
      convertAux ["- "] fuel 0 parts imgs = none)
    ∧ convert "- " = none :=
  ⟨convertAux_dashLine_none, convert_dash_none⟩
